import Mathlib

/-!
Verification of the adaptive polling engine of `wyniki-tenis`
(`results.py` and `results_state_machine.py`).

The Python code is shallowly embedded:
* JSON values (`dict` / `list` / scalars) become the inductive `JValue`;
  Python `None` and JSON `null` are the same object in the source
  (`json` decodes `null` to `None`), both are embedded as `JValue.null`.
* Python `dict`s become association lists (`List (String × JValue)`)
  preserving insertion order; `dict.__setitem__` updates the first
  occurrence of a key in place and appends new keys at the end, which is
  exactly what `setKey` below does.
* `float` timestamps and durations become `ℚ`.
* Numeric JSON payload values are embedded as `Int` (the engine only ever
  truncates them to `int`).
-/

inductive JValue where
  | null
  | bool (b : Bool)
  | num (n : Int)
  | str (s : String)
  | obj (fields : List (String × JValue))
  | arr (items : List JValue)

abbrev RawMap := List (String × JValue)

/-- Lookup of a key in an association list (first occurrence), the
embedding of `d.get(k)` returning `None` on a missing key is `jGetD`. -/
def alookup {α : Type} (m : List (String × α)) (k : String) : Option α :=
  match m with
  | [] => none
  | (k', v) :: rest => if k' = k then some v else alookup rest k

/-- `d.get(k)`: Python `dict.get` with default `None`; missing keys and
stored `null` values are both `JValue.null`. -/
def jGetD (m : RawMap) (k : String) : JValue :=
  (alookup m k).getD JValue.null

/-- `k in d`: Python key-containment test. -/
def hasKey {α : Type} (m : List (String × α)) (k : String) : Bool :=
  (alookup m k).isSome

/-- `d[k] = v`: Python dict assignment — replaces the value at the first
occurrence of `k`, keeping its position, or appends `(k, v)` at the end. -/
def setKey {α : Type} (m : List (String × α)) (k : String) (v : α) :
    List (String × α) :=
  match m with
  | [] => [(k, v)]
  | (k', v') :: rest =>
    if k' = k then (k', v) :: rest else (k', v') :: setKey rest k v

/-- `a.update(b)`: fold Python dict assignments of `b` over `a`. -/
def updList {α : Type} (a b : List (String × α)) : List (String × α) :=
  b.foldl (fun m kv => setKey m kv.1 kv.2) a

/-- `d.keys()` as a list. -/
def keysOf {α : Type} (m : List (String × α)) : List String := m.map Prod.fst

theorem alookup_setKey_self {α : Type} (m : List (String × α)) (k : String)
    (v : α) : alookup (setKey m k v) k = some v := by
  induction m with
  | nil => simp [setKey, alookup]
  | cons hd tl ih =>
    obtain ⟨k', v'⟩ := hd
    by_cases h : k' = k <;> simp [setKey, alookup, h, ih]

theorem alookup_setKey_ne {α : Type} (m : List (String × α)) (k j : String)
    (v : α) (hne : k ≠ j) : alookup (setKey m k v) j = alookup m j := by
  induction m with
  | nil => simp [setKey, alookup, hne]
  | cons hd tl ih =>
    obtain ⟨k', v'⟩ := hd
    by_cases h : k' = k
    · subst h; simp [setKey, alookup, hne, Ne.symm hne]
    · by_cases h2 : k' = j <;>
        simp [setKey, alookup, h, h2, ih, Ne.symm hne]

theorem setKey_self_of_lookup {α : Type} (m : List (String × α)) (k : String)
    (v : α) (h : alookup m k = some v) : setKey m k v = m := by
  induction m with
  | nil => simp [alookup] at h
  | cons hd tl ih =>
    obtain ⟨k', v'⟩ := hd
    by_cases hk : k' = k
    · subst hk
      simp [alookup] at h
      simp [setKey, h]
    · simp [alookup, hk] at h
      simp [setKey, hk, ih h]

theorem setKey_setKey_same {α : Type} (m : List (String × α)) (k : String)
    (v w : α) : setKey (setKey m k v) k w = setKey m k w := by
  induction m with
  | nil => simp [setKey]
  | cons hd tl ih =>
    obtain ⟨k', v'⟩ := hd
    by_cases h : k' = k <;> simp [setKey, h, ih]

theorem alookup_updList_notMem {α : Type} (a b : List (String × α))
    (k : String) (hk : k ∉ keysOf b) :
    alookup (updList a b) k = alookup a k := by
  induction b generalizing a with
  | nil => simp [updList]
  | cons hd tl ih =>
    obtain ⟨j, w⟩ := hd
    simp [keysOf] at hk
    have := ih (setKey a j w) (by simp [keysOf]; exact hk.2)
    simp [updList] at this ⊢
    rw [this, alookup_setKey_ne _ _ _ _ (fun h => hk.1 h.symm)]

/-- Generic fold of Python dict assignments where the stored value may
depend on the value previously present at the key (used for the
`PlayerA`/`PlayerB` sub-dict merging in `_merge_partial_payload`). -/
def updWith {α : Type} (resolve : String → Option α → α → α)
    (a b : List (String × α)) : List (String × α) :=
  b.foldl (fun m kv => setKey m kv.1 (resolve kv.1 (alookup m kv.1) kv.2)) a

theorem alookup_updWith_notMem {α : Type}
    (resolve : String → Option α → α → α) (a b : List (String × α))
    (k : String) (hk : k ∉ keysOf b) :
    alookup (updWith resolve a b) k = alookup a k := by
  induction b generalizing a with
  | nil => simp [updWith]
  | cons hd tl ih =>
    obtain ⟨j, w⟩ := hd
    simp [keysOf] at hk
    have := ih (setKey a j (resolve j (alookup a j) w))
      (by simp [keysOf]; exact hk.2)
    simp [updWith] at this ⊢
    rw [this, alookup_setKey_ne _ _ _ _ (fun h => hk.1 h.symm)]

theorem keysOf_cons {α : Type} (k : String) (v : α) (tl : List (String × α)) :
    keysOf ((k, v) :: tl) = k :: keysOf tl := rfl

/-- Processing the same key-list twice with `updWith` is the same as
processing it once, provided the keys are distinct and the resolver is
idempotent on every value of the list. -/
theorem updWith_idem {α : Type} (resolve : String → Option α → α → α)
    (b : List (String × α)) (hnd : (keysOf b).Nodup)
    (hres : ∀ kv ∈ b, ∀ x,
      resolve kv.1 (some (resolve kv.1 x kv.2)) kv.2 = resolve kv.1 x kv.2) :
    ∀ a, updWith resolve (updWith resolve a b) b = updWith resolve a b := by
  induction b with
  | nil => intro a; simp [updWith]
  | cons hd tl ih =>
    intro a
    obtain ⟨k, v⟩ := hd
    rw [keysOf_cons, List.nodup_cons] at hnd
    have hknotin : k ∉ keysOf tl := hnd.1
    have hres' : ∀ kv ∈ tl, ∀ x,
        resolve kv.1 (some (resolve kv.1 x kv.2)) kv.2 = resolve kv.1 x kv.2 :=
      fun kv hkv => hres kv (List.mem_cons_of_mem _ hkv)
    have hreshd := hres (k, v) (List.mem_cons_self _ _)
    have step1 : ∀ m, updWith resolve m ((k, v) :: tl) =
        updWith resolve (setKey m k (resolve k (alookup m k) v)) tl := by
      intro m; simp [updWith]
    have hlookM : alookup (updWith resolve
        (setKey a k (resolve k (alookup a k) v)) tl) k =
        some (resolve k (alookup a k) v) := by
      rw [alookup_updWith_notMem _ _ _ _ hknotin, alookup_setKey_self]
    rw [step1 a]
    rw [step1 (updWith resolve (setKey a k (resolve k (alookup a k) v)) tl)]
    rw [hlookM, hreshd (alookup a k),
      setKey_self_of_lookup _ _ _ hlookM]
    exact ih hnd.2 hres' _

/-- Python truthiness (`bool(value)`) on embedded JSON values. -/
def pyTruthy : JValue → Bool
  | .null => false
  | .bool b => b
  | .num n => n ≠ 0
  | .str s => s ≠ ""
  | .obj fields => !fields.isEmpty
  | .arr items => !items.isEmpty

/-- Python `x or y`. -/
def pyOr (x y : JValue) : JValue := if pyTruthy x then x else y

mutual

/-- Python `str(value)`.  For containers the source only ever compares the
rendering against fixed scalar token sets (`"1"`, `"true"`, ...), so the
rendering below keeps the decisive Python properties (starts with a
bracket, non-empty) without reproducing `repr`'s quoting of inner
strings. -/
def pyStr : JValue → String
  | .null => "None"
  | .bool b => if b then "True" else "False"
  | .num n => toString n
  | .str s => s
  | .obj fields => "\x7b" ++ String.intercalate ", " (pyStrFields fields) ++ "\x7d"
  | .arr items => "[" ++ String.intercalate ", " (pyStrItems items) ++ "]"

def pyStrFields : List (String × JValue) → List String
  | [] => []
  | (k, v) :: rest => (k ++ ": " ++ pyStr v) :: pyStrFields rest

def pyStrItems : List JValue → List String
  | [] => []
  | v :: rest => pyStr v :: pyStrItems rest

end

/-- `p` is a prefix of `l` (on character lists). -/
def charsStart : List Char → List Char → Bool
  | [], _ => true
  | _ :: _, [] => false
  | a :: as, b :: bs => a = b && charsStart as bs

/-- `p` occurs as a contiguous substring of `l`; embeds Python
`p in s` on strings. -/
def charsSub (p l : List Char) : Bool :=
  charsStart p l ||
    match l with
    | [] => false
    | _ :: bs => charsSub p bs

/-- Python `sub in s` for strings. -/
def strIn (sub s : String) : Bool := charsSub sub.toList s.toList

/-- Python `s.isdigit()` restricted to ASCII digits (the only digits the
payloads carry). -/
def strIsDigits (s : String) : Bool := s ≠ "" && s.toList.all (·.isDigit)

/-- `s.strip()` (ASCII/unicode whitespace as `Char.isWhitespace`),
implemented over character lists so that concrete runs reduce in the
kernel. -/
def pyStrip (s : String) : String :=
  String.mk
    (((s.toList.dropWhile Char.isWhitespace).reverse.dropWhile
      Char.isWhitespace).reverse)

/-- `s.lower()` (ASCII case folding, as the payload tokens require). -/
def pyLower (s : String) : String :=
  String.mk (s.toList.map Char.toLower)

def splitCharsOn (c : Char) : List Char → List (List Char)
  | [] => [[]]
  | ch :: rest =>
    let r := splitCharsOn c rest
    if ch = c then [] :: r
    else
      match r with
      | hd :: tl => (ch :: hd) :: tl
      | [] => [[ch]]

/-- `s.split(sep)` for a one-character separator. -/
def splitOnCharStr (c : Char) (s : String) : List String :=
  (splitCharsOn c s.toList).map String.mk

def charsEndWith (suffix l : List Char) : Bool :=
  charsStart suffix.reverse l.reverse

/-- `s.startswith(p)`. -/
def strStarts (s p : String) : Bool := charsStart p.toList s.toList

/-- `s.endswith(p)`. -/
def strEnds (s p : String) : Bool := charsEndWith p.toList s.toList

/-- The last `n` characters of `s`. -/
def strTakeRight (s : String) (n : ℕ) : String :=
  String.mk (s.toList.reverse.take n).reverse

/-- `s` without its last `n` characters. -/
def strDropRight (s : String) (n : ℕ) : String :=
  String.mk (s.toList.reverse.drop n).reverse

/-- `s` without its first `n` characters. -/
def strDrop (s : String) (n : ℕ) : String :=
  String.mk (s.toList.drop n)

def digitsToNat (cs : List Char) : Nat :=
  cs.foldl (fun n c => n * 10 + (c.toNat - 48)) 0

/-- Truncating string-to-int conversion: the embedding of Python
`int(float(text))` for plain decimal literals (optional sign, digits,
optional fraction).  Exponent forms and `inf`/`nan` are not modelled —
the engine's payloads never carry them. -/
def pyParseIntViaFloat (s : String) : Option Int :=
  let cs := s.toList
  let signAndRest : Bool × List Char :=
    match cs with
    | '-' :: rest => (true, rest)
    | '+' :: rest => (false, rest)
    | rest => (false, rest)
  let neg := signAndRest.1
  let rest := signAndRest.2
  let intPart := rest.takeWhile (·.isDigit)
  let tail := rest.dropWhile (·.isDigit)
  let ok : Bool :=
    match tail with
    | [] => intPart ≠ []
    | '.' :: frac =>
      frac.all (·.isDigit) && (intPart ≠ [] || frac ≠ [])
    | _ => false
  if ok then
    let n : Int := Int.ofNat (digitsToNat intPart)
    some (if neg then -n else n)
  else
    none

/-- `results_state_machine._normalize_int`. -/
def normalize_int (value : JValue) : Option Int :=
  match value with
  | .null => none
  | .bool b => some (if b then 1 else 0)
  | .num n => some n
  | v =>
    let text := pyStrip (pyStr v)
    if text = "" || (pyLower text ∈ ["na", "null", "none", "-"]) then
      none
    else
      pyParseIntViaFloat text

/-- `results_state_machine._point_category`. -/
def point_category (value : JValue) : String :=
  match value with
  | .null => "unknown"
  | .bool b => if b then "positive" else "zero"
  | .num n => if n > 0 then "positive" else "zero"
  | v =>
    let text := pyStrip (pyStr v).toLower
    if text = "" || text ∈ ["-", "", "na", "null", "none"] then "unknown"
    else if text ∈ ["0", "00", "love", "l"] then "zero"
    else if strIsDigits text then
      (if (digitsToNat text.toList : Int) > 0 then "positive" else "zero")
    else if text ∈ ["ad", "adv", "advantage", "game", "won", "w"] then
      "positive"
    else "positive"

/-- `results_state_machine._truthy`. -/
def truthy (value : JValue) : Bool :=
  match value with
  | .null => false
  | .bool b => b
  | v =>
    pyStrip (pyStr v).toLower ∈
      ["1", "true", "yes", "on", "tak", "finished", "finish", "complete",
        "completed", "done"]

theorem alookup_sizeOf_lt (fields : List (String × JValue)) (k : String)
    (v : JValue) (h : alookup fields k = some v) : sizeOf v < sizeOf fields := by
  induction fields with
  | nil => simp [alookup] at h
  | cons hd tl ih =>
    obtain ⟨k', v'⟩ := hd
    by_cases hk : k' = k
    · simp [alookup, hk] at h
      subst h
      simp
      omega
    · simp [alookup, hk] at h
      have := ih h
      simp
      omega

mutual

/-- Structural node count of a payload value: the fuel measure for the
`_normalize`/`_walk` recursions below. -/
def jweight : JValue → ℕ
  | .null => 1
  | .bool _ => 1
  | .num _ => 1
  | .str _ => 1
  | .obj fields => 1 + jweightFields fields
  | .arr items => 1 + jweightItems items

def jweightFields : List (String × JValue) → ℕ
  | [] => 0
  | (_, v) :: rest => 1 + jweight v + jweightFields rest

def jweightItems : List JValue → ℕ
  | [] => 0
  | v :: rest => 1 + jweight v + jweightItems rest

end

theorem alookup_jweight_lt (fields : List (String × JValue)) (k : String)
    (v : JValue) (h : alookup fields k = some v) :
    jweight v < jweightFields fields := by
  induction fields with
  | nil => simp [alookup] at h
  | cons hd tl ih =>
    obtain ⟨j, w⟩ := hd
    by_cases hj : j = k
    · simp [alookup, hj] at h
      subst h
      simp [jweightFields]
      omega
    · simp [alookup, hj] at h
      have := ih h
      simp [jweightFields]
      omega

theorem jweight_pos (v : JValue) : 1 ≤ jweight v := by
  cases v <;> simp [jweight]

/-- Fuel-indexed implementation of `_flatten_overlay_payload._normalize`;
`jnormalize` below supplies provably sufficient fuel, and
`jnormalize_eq` establishes the source's recursion equation. -/
def jnormalizeF : ℕ → JValue → JValue
  | 0, v => v
  | fuel + 1, v =>
    match v with
    | .obj fields =>
      (match alookup fields "value" with
      | some w => jnormalizeF fuel w
      | none =>
        match alookup fields "Value" with
        | some w => jnormalizeF fuel w
        | none => .obj fields)
    | v => v

theorem jnormalizeF_canon :
    ∀ (w : ℕ) (v : JValue), jweight v ≤ w →
      ∀ (f : ℕ), jweight v ≤ f → jnormalizeF f v = jnormalizeF (jweight v) v := by
  intro w
  induction w using Nat.strong_induction_on with
  | _ w ih =>
    intro v hvw f hvf
    have hp := jweight_pos v
    cases f with
    | zero => omega
    | succ f0 =>
      cases v with
      | obj fields =>
        have hw : jweight (JValue.obj fields) = jweightFields fields + 1 := by
          simp [jweight]
          omega
        rw [hw] at hvw hvf ⊢
        simp only [jnormalizeF]
        cases h1 : alookup fields "value" with
        | some u =>
          have hlt := alookup_jweight_lt fields "value" u h1
          simp only []
          rw [ih (jweight u) (by omega) u le_rfl f0 (by omega),
            ih (jweight u) (by omega) u le_rfl (jweightFields fields)
              (by omega)]
        | none =>
          simp only []
          cases h2 : alookup fields "Value" with
          | some u =>
            have hlt := alookup_jweight_lt fields "Value" u h2
            simp only []
            rw [ih (jweight u) (by omega) u le_rfl f0 (by omega),
              ih (jweight u) (by omega) u le_rfl (jweightFields fields)
                (by omega)]
          | none => rfl
      | null => rfl
      | bool b => rfl
      | num n => rfl
      | str s => rfl
      | arr l =>
        have hw : jweight (JValue.arr l) = jweightItems l + 1 := by
          simp [jweight]
          omega
        rw [hw]
        rfl

/-- `_flatten_overlay_payload._normalize`: recursively unwrap
`{"value": X}` / `{"Value": X}` wrappers (fuel-supplied implementation;
the source's recursion equation is `jnormalize_eq`/`jnormalize_obj`). -/
def jnormalize (v : JValue) : JValue := jnormalizeF (jweight v) v

theorem jnormalize_obj (fields : List (String × JValue)) :
    jnormalize (JValue.obj fields) =
      (match alookup fields "value" with
      | some w => jnormalize w
      | none =>
        match alookup fields "Value" with
        | some w => jnormalize w
        | none => JValue.obj fields) := by
  show jnormalizeF (jweight (JValue.obj fields)) (JValue.obj fields) = _
  have hw : jweight (JValue.obj fields) = jweightFields fields + 1 := by
    simp [jweight]
    omega
  rw [hw]
  simp only [jnormalizeF]
  cases h1 : alookup fields "value" with
  | some u =>
    have hlt := alookup_jweight_lt fields "value" u h1
    simp only []
    exact jnormalizeF_canon (jweight u) u le_rfl (jweightFields fields)
      (by omega)
  | none =>
    simp only []
    cases h2 : alookup fields "Value" with
    | some u =>
      have hlt := alookup_jweight_lt fields "Value" u h2
      simp only []
      exact jnormalizeF_canon (jweight u) u le_rfl (jweightFields fields)
        (by omega)
    | none => rfl

theorem jnormalize_not_obj (v : JValue)
    (h : ∀ fields, v ≠ JValue.obj fields) : jnormalize v = v := by
  cases v with
  | obj fields => exact absurd rfl (h fields)
  | null => rfl
  | bool b => rfl
  | num n => rfl
  | str s => rfl
  | arr l =>
    show jnormalizeF (jweight (JValue.arr l)) (JValue.arr l) = JValue.arr l
    have hw : jweight (JValue.arr l) = jweightItems l + 1 := by
      simp [jweight]
      omega
    rw [hw]
    rfl

theorem jweight_jnormalize_le_aux :
    ∀ (n : ℕ) (v : JValue), jweight v ≤ n →
      jweight (jnormalize v) ≤ jweight v := by
  intro n
  induction n with
  | zero =>
    intro v h
    exact absurd h (by have := jweight_pos v; omega)
  | succ n ih =>
    intro v h
    cases v with
    | obj fields =>
      rw [jnormalize_obj]
      cases h1 : alookup fields "value" with
      | some v1 =>
        simp only [h1]
        have hlt := alookup_jweight_lt fields "value" v1 h1
        have hweq : jweight (JValue.obj fields) = 1 + jweightFields fields :=
          rfl
        have hv1 : jweight v1 ≤ n := by omega
        have := ih v1 hv1
        omega
      | none =>
        simp only [h1]
        cases h2 : alookup fields "Value" with
        | some v1 =>
          simp only [h2]
          have hlt := alookup_jweight_lt fields "Value" v1 h2
          have hweq : jweight (JValue.obj fields) = 1 + jweightFields fields :=
            rfl
          have hv1 : jweight v1 ≤ n := by omega
          have := ih v1 hv1
          omega
        | none => simp only [h2]; omega
    | null => rw [jnormalize_not_obj] <;> simp
    | bool b => rw [jnormalize_not_obj] <;> simp
    | num m => rw [jnormalize_not_obj] <;> simp
    | str s => rw [jnormalize_not_obj] <;> simp
    | arr items => rw [jnormalize_not_obj] <;> simp

theorem jweight_jnormalize_le (v : JValue) :
    jweight (jnormalize v) ≤ jweight v :=
  jweight_jnormalize_le_aux (jweight v) v le_rfl

/-- Fuel-indexed implementation of `_flatten_overlay_payload._walk`;
`walkObj` below supplies provably sufficient fuel, and
`walkObj_nil`/`walkObj_cons` establish the source's recursion
equations. -/
def walkObjF : ℕ → List (String × JValue) → RawMap → RawMap
  | _, [], flat => flat
  | 0, _ :: _, flat => flat
  | fuel + 1, (key, value) :: rest, flat =>
    let f1 :=
      match jnormalize value with
      | .obj nfs => walkObjF fuel nfs flat
      | n => setKey flat key n
    let f2 :=
      match value with
      | .obj vfs => walkObjF fuel vfs f1
      | _ => f1
    walkObjF fuel rest f2

theorem walkObjF_nil (fuel : ℕ) (flat : RawMap) :
    walkObjF fuel [] flat = flat := by
  cases fuel <;> rfl

theorem match_norm_fuel_congr (value : JValue) (key : String)
    (flat : RawMap) (f g : ℕ)
    (h : ∀ nfs, jnormalize value = JValue.obj nfs →
      walkObjF f nfs flat = walkObjF g nfs flat) :
    (match jnormalize value with
      | .obj nfs => walkObjF f nfs flat
      | n => setKey flat key n) =
    (match jnormalize value with
      | .obj nfs => walkObjF g nfs flat
      | n => setKey flat key n) := by
  cases hn : jnormalize value with
  | obj nfs => exact h nfs hn
  | null => rfl
  | bool b => rfl
  | num n => rfl
  | str s => rfl
  | arr l => rfl

theorem match_val_fuel_congr (value : JValue) (x : RawMap) (f g : ℕ)
    (h : ∀ vfs, value = JValue.obj vfs →
      walkObjF f vfs x = walkObjF g vfs x) :
    (match value with
      | .obj vfs => walkObjF f vfs x
      | _ => x) =
    (match value with
      | .obj vfs => walkObjF g vfs x
      | _ => x) := by
  cases value with
  | obj vfs => exact h vfs rfl
  | null => rfl
  | bool b => rfl
  | num n => rfl
  | str s => rfl
  | arr l => rfl

theorem walkObjF_canon :
    ∀ (w : ℕ) (fields : List (String × JValue)), jweightFields fields ≤ w →
      ∀ (f : ℕ) (flat : RawMap), jweightFields fields ≤ f →
        walkObjF f fields flat =
          walkObjF (jweightFields fields) fields flat := by
  intro w
  induction w using Nat.strong_induction_on with
  | _ w ih =>
    intro fields hfw f flat hff
    cases fields with
    | nil => rw [walkObjF_nil, walkObjF_nil]
    | cons hd rest =>
      obtain ⟨key, value⟩ := hd
      have hwt : jweightFields ((key, value) :: rest) =
          (jweight value + jweightFields rest) + 1 := by
        simp [jweightFields]
        omega
      have hvpos := jweight_pos value
      cases f with
      | zero => rw [hwt] at hff; omega
      | succ f0 =>
        rw [hwt] at hfw hff ⊢
        simp only [walkObjF]
        have hnle := jweight_jnormalize_le value
        have hrec1 : ∀ nfs, jnormalize value = JValue.obj nfs →
            walkObjF f0 nfs flat =
              walkObjF (jweight value + jweightFields rest) nfs flat := by
          intro nfs hn
          have hnw : jweight (JValue.obj nfs) = 1 + jweightFields nfs := rfl
          rw [hn] at hnle
          have hbw : jweightFields nfs < w := by omega
          rw [ih (jweightFields nfs) hbw nfs le_rfl f0 flat (by omega),
            ih (jweightFields nfs) hbw nfs le_rfl
              (jweight value + jweightFields rest) flat (by omega)]
        rw [match_norm_fuel_congr value key flat f0
          (jweight value + jweightFields rest) hrec1]
        have hrec2 : ∀ (x : RawMap) vfs, value = JValue.obj vfs →
            walkObjF f0 vfs x =
              walkObjF (jweight value + jweightFields rest) vfs x := by
          intro x vfs hv
          have hvw : jweight (JValue.obj vfs) = 1 + jweightFields vfs := rfl
          rw [hv] at hfw hff
          rw [hvw] at hfw hff
          have hbw : jweightFields vfs < w := by omega
          rw [hv]
          rw [ih (jweightFields vfs) hbw vfs le_rfl f0 x (by omega),
            ih (jweightFields vfs) hbw vfs le_rfl
              (jweight (JValue.obj vfs) + jweightFields rest) x (by
              rw [hvw]
              omega)]
        rw [match_val_fuel_congr value _ f0
          (jweight value + jweightFields rest) (fun vfs hv => hrec2 _ vfs hv)]
        have hbw : jweightFields rest < w := by omega
        rw [ih (jweightFields rest) hbw rest le_rfl f0 _ (by omega),
          ih (jweightFields rest) hbw rest le_rfl
            (jweight value + jweightFields rest) _ (by omega)]
        cases value <;> rfl

/-- `_flatten_overlay_payload._walk`: walk a dict, record unwrapped
leaves in insertion/overwrite order, and recurse both into the unwrapped
and into the original dict values (fuel-supplied implementation; the
recursion equations of the source are `walkObj_nil` and
`walkObj_cons`). -/
def walkObj (fields : List (String × JValue)) (flat : RawMap) : RawMap :=
  walkObjF (jweightFields fields) fields flat

/-- Helper of `_walk`: either recurse into an unwrapped dict or record
the unwrapped leaf under `key`. -/
def walkNormalized (key : String) : JValue → RawMap → RawMap
  | .obj nfs, flat => walkObj nfs flat
  | n, flat => setKey flat key n

theorem walkObj_nil (flat : RawMap) : walkObj [] flat = flat := rfl

theorem match_norm_walk (value : JValue) (key : String) (flat : RawMap)
    (f : ℕ)
    (h : ∀ nfs, jnormalize value = JValue.obj nfs →
      walkObjF f nfs flat = walkObj nfs flat) :
    (match jnormalize value with
      | .obj nfs => walkObjF f nfs flat
      | n => setKey flat key n) =
    walkNormalized key (jnormalize value) flat := by
  cases hn : jnormalize value with
  | obj nfs => exact h nfs hn
  | null => rfl
  | bool b => rfl
  | num n => rfl
  | str s => rfl
  | arr l => rfl

theorem match_val_walk (value : JValue) (x : RawMap) (f : ℕ)
    (h : ∀ vfs, value = JValue.obj vfs →
      walkObjF f vfs x = walkObj vfs x) :
    (match value with
      | .obj vfs => walkObjF f vfs x
      | _ => x) =
    (match value with
      | .obj vfs => walkObj vfs x
      | _ => x) := by
  cases value with
  | obj vfs => exact h vfs rfl
  | null => rfl
  | bool b => rfl
  | num n => rfl
  | str s => rfl
  | arr l => rfl

theorem walkObj_cons (key : String) (value : JValue)
    (rest : List (String × JValue)) (flat : RawMap) :
    walkObj ((key, value) :: rest) flat =
      walkObj rest
        (match value with
        | .obj vfs =>
          walkObj vfs (walkNormalized key (jnormalize value) flat)
        | _ => walkNormalized key (jnormalize value) flat) := by
  have hwt : jweightFields ((key, value) :: rest) =
      (jweight value + jweightFields rest) + 1 := by
    simp [jweightFields]
    omega
  have hvpos := jweight_pos value
  have hnle := jweight_jnormalize_le value
  show walkObjF (jweightFields ((key, value) :: rest))
      ((key, value) :: rest) flat = _
  rw [hwt]
  simp only [walkObjF]
  rw [match_norm_walk value key flat (jweight value + jweightFields rest)
    (fun nfs hn => by
      have hnw : jweight (JValue.obj nfs) = 1 + jweightFields nfs := rfl
      rw [hn] at hnle
      exact walkObjF_canon (jweightFields nfs) nfs le_rfl
        (jweight value + jweightFields rest) flat (by omega))]
  rw [match_val_walk value (walkNormalized key (jnormalize value) flat)
    (jweight value + jweightFields rest)
    (fun vfs hv => by
      have hvw : jweight (JValue.obj vfs) = 1 + jweightFields vfs := rfl
      rw [hv]
      exact walkObjF_canon (jweightFields vfs) vfs le_rfl
        (jweight (JValue.obj vfs) + jweightFields rest) _ (by
          rw [hvw]
          omega))]
  rw [walkObjF_canon (jweightFields rest) rest le_rfl
    (jweight value + jweightFields rest) _ (by omega)]
  cases value <;> rfl

/-- `_PLAYER_FIELD_PATTERN`:
`^(Name|Points|Set\d+|CurrentSet|TieBreak)Player([AB])$`. -/
def matchPlayerField (key : String) : Option (String × String) :=
  if strEnds key "PlayerA" || strEnds key "PlayerB" then
    let suffix := strTakeRight key 1
    let field := strDropRight key 7
    if field ∈ ["Name", "Points", "CurrentSet", "TieBreak"] then
      some (field, suffix)
    else if strStarts field "Set" && strIsDigits (strDrop field 3) then
      some (field, suffix)
    else none
  else none

/-- `_flatten_overlay_payload`: walk the payload, then fold keys matching
the player-field pattern into nested `PlayerA` / `PlayerB` structures. -/
def flatten_overlay_payload (payload : RawMap) : RawMap :=
  let flat := walkObj payload []
  let nested : List (String × RawMap) :=
    flat.foldl
      (fun acc kv =>
        match matchPlayerField kv.1 with
        | none => acc
        | some (field, suffix) =>
          let player_key := "Player" ++ suffix
          let player_fields := (alookup acc player_key).getD []
          setKey acc player_key (setKey player_fields field kv.2))
      []
  nested.foldl
    (fun fl pkf =>
      let base : RawMap :=
        match jGetD fl pkf.1 with
        | .obj existing => existing
        | .null => []
        | other => [("Value", other)]
      setKey fl pkf.1 (.obj (updList base pkf.2)))
    flat

mutual

/-- `_interpret_visibility_value`. -/
def interpret_visibility_value : JValue → Option Bool
  | .bool b => some b
  | .num n => some (decide (n ≠ 0))
  | .str s =>
    let normalized := pyLower (pyStrip s)
    if normalized ∈ ["1", "true", "yes", "on", "tak", "visible", "show"] then
      some true
    else if normalized ∈ ["0", "false", "no", "off", "nie", "hidden", "hide"]
      then some false
    else none
  | .obj fields =>
    interpVisibilityKeys fields ["value", "Value", "visibility", "Visibility"]
  | .null => none
  | .arr _ => none
termination_by v => (sizeOf v, 0)

/-- The key loop inside `_interpret_visibility_value` for dict values. -/
def interpVisibilityKeys : List (String × JValue) → List String → Option Bool
  | _, [] => none
  | fields, k :: ks =>
    match h : alookup fields k with
    | some v =>
      match interpret_visibility_value v with
      | some b => some b
      | none => interpVisibilityKeys fields ks
    | none => interpVisibilityKeys fields ks
termination_by fields ks => (sizeOf fields, ks.length)
decreasing_by
  · exact Prod.Lex.left _ _ (by simpa using alookup_sizeOf_lt fields k v h)
  · exact Prod.Lex.right _ (by simp)
  · exact Prod.Lex.right _ (by simp)

end

/-- `value is None` (Python identity test with `None`). -/
def jIsNull : JValue → Bool
  | .null => true
  | _ => false

/-- `_detect_overlay_visibility`: scan the flat map for an
overlay-visibility style key with an interpretable value. -/
def detect_overlay_visibility : RawMap → Option Bool
  | [] => none
  | (key, value) :: rest =>
    let key_text := pyLower key
    if strIn "overlay" key_text &&
        (strIn "visibility" key_text || key_text == "overlayvisible") then
      match interpret_visibility_value value with
      | some b => some b
      | none => detect_overlay_visibility rest
    else detect_overlay_visibility rest

/-- The suffix loop of `_detect_server`. -/
def detect_server_go (data : RawMap) : List String → Option String
  | [] => none
  | sfx :: rest =>
    match alookup data ("ServePlayer" ++ sfx) with
    | none => detect_server_go data rest
    | some .null => detect_server_go data rest
    | some v =>
      if pyStrip (pyStr v).toLower ∈ ["1", "true", "yes", "on"] then some sfx
      else detect_server_go data rest

/-- `_detect_server`. -/
def detect_server (data : RawMap) : Option String :=
  detect_server_go data ["A", "B"]

/-- The per-player record produced by `_extract_players`
(a dict with exactly the keys `name`, `points`, `sets`). -/
structure ParsedPlayer where
  name : JValue
  points : JValue
  sets : RawMap

/-- `d.setdefault(k, v)` (only the resulting dict; the returned value is
read separately where needed). -/
def setDefaultKey {α : Type} (m : List (String × α)) (k : String) (v : α) :
    List (String × α) :=
  if hasKey m k then m else m ++ [(k, v)]

/-- One iteration of `_extract_players` for a fixed suffix. -/
def extract_player (data : RawMap) (suffix : String) : ParsedPlayer :=
  let player_key := "Player" ++ suffix
  let nested := jGetD data player_key
  let fromNested : JValue × JValue × RawMap :=
    match nested with
    | .obj nfs =>
      let name0 :=
        if hasKey nfs "Name" then jGetD nfs "Name"
        else if hasKey nfs "Value" then jGetD nfs "Value"
        else .null
      let points0 := if hasKey nfs "Points" then jGetD nfs "Points" else .null
      let sets0 :=
        nfs.foldl
          (fun (sets : RawMap) kv =>
            if strStarts kv.1 "Set" then
              setKey sets (kv.1 ++ "Player" ++ suffix) kv.2
            else if kv.1 == "CurrentSet" then
              setKey sets ("CurrentSetPlayer" ++ suffix) kv.2
            else if kv.1 == "TieBreak" then
              setKey sets ("TieBreakPlayer" ++ suffix) kv.2
            else sets)
          []
      (name0, points0, sets0)
    | _ => (.null, .null, [])
  let name1 := fromNested.1
  let points1 := fromNested.2.1
  let sets1 := fromNested.2.2
  let name2 :=
    if jIsNull name1 then
      match jGetD data player_key with
      | .obj fb => pyOr (jGetD fb "Name") (jGetD fb "Value")
      | .null => .null
      | fb => fb
    else name1
  let name3 :=
    if jIsNull name2 then jGetD data ("NamePlayer" ++ suffix) else name2
  let points2 :=
    if jIsNull points1 then jGetD data ("PointsPlayer" ++ suffix)
    else points1
  let sets2 :=
    data.foldl
      (fun (sets : RawMap) kv =>
        if strStarts kv.1 "Set" && strEnds kv.1 ("Player" ++ suffix) then
          setDefaultKey sets kv.1 kv.2
        else sets)
      sets1
  { name := name3, points := points2, sets := sets2 }

/-- `_extract_players`. -/
def extract_players (data : RawMap) : List (String × ParsedPlayer) :=
  [("A", extract_player data "A"), ("B", extract_player data "B")]

/-- The result record of `parse_overlay_json`. -/
structure ParsedOverlay where
  players : List (String × ParsedPlayer)
  serving : Option String
  available : Option Bool
  raw : RawMap

/-- `parse_overlay_json`.  The `ValueError` branch for non-dict payloads
is unreachable here: every caller in the merge path passes the
accumulated raw dict. -/
def parse_overlay_json (payload : RawMap) : ParsedOverlay :=
  let normalized := flatten_overlay_payload payload
  { players := extract_players normalized
    serving := detect_server normalized
    available := detect_overlay_visibility normalized
    raw := normalized }

def SNAPSHOT_STATUS_NO_DATA : String := "brak danych"
def SNAPSHOT_STATUS_UNAVAILABLE : String := "niedostępny"
def SNAPSHOT_STATUS_OK : String := "ok"

def COMMAND_ERROR_PAUSE_MINUTES : ℕ := 5
def ARCHIVE_LIMIT : ℕ := 50

structure Badge where
  key : String
  label : String
  description : String

def NOT_FOUND_BADGE : Badge :=
  { key := "not_found", label := "404",
    description := "Kort nie został znaleziony (HTTP 404)" }

/-- The dict appended to a snapshot's archive by `_archive_snapshot`. -/
structure ArchiveRec where
  kort_id : String
  status : String
  last_updated : Option String
  players : List (String × RawMap)
  serving : Option String
  raw : RawMap
  error : Option String

/-- A per-resource snapshot entry (`snapshots[kort_id]`).  The engine
only ever stores dicts with exactly these keys (see
`ensure_snapshot_entry`), so the embedding types them; the `setdefault`
calls of the source are then identities. -/
structure Entry where
  kort_id : String
  status : String
  last_updated : Option String
  players : List (String × RawMap)
  raw : RawMap
  serving : Option String
  error : Option String
  available : Bool
  archive : List ArchiveRec
  pause_active : Bool
  pause_minutes : ℕ
  pause_until : Option String
  badges : List Badge

/-- `ensure_snapshot_entry` on first sight of a resource id. -/
def ensure_snapshot_entry (kort_id : String) : Entry :=
  { kort_id := kort_id
    status := SNAPSHOT_STATUS_NO_DATA
    last_updated := none
    players := []
    raw := []
    serving := none
    error := none
    available := false
    archive := []
    pause_active := false
    pause_minutes := COMMAND_ERROR_PAUSE_MINUTES
    pause_until := none
    badges := [] }

/-- `x == ""` against an embedded value (only strings compare equal to a
string in Python). -/
def jIsEmptyStr : JValue → Bool
  | .str s => s == ""
  | _ => false

/-- The per-key resolution of the raw-map merge loop in
`_merge_partial_payload`: `PlayerA`/`PlayerB` dict values are merged
into an existing dict, everything else overwrites. -/
def mergeResolve (k : String) (old : Option JValue) (v : JValue) : JValue :=
  match v with
  | .obj vfs =>
    if k == "PlayerA" || k == "PlayerB" then
      match old with
      | some (.obj existing) => .obj (updList existing vfs)
      | _ => .obj vfs
    else .obj vfs
  | _ => v

/-- The accumulated raw map after merging one partial payload. -/
def mergeRawMap (raw partial_ : RawMap) : RawMap :=
  updWith mergeResolve raw partial_

/-- `_merge_partial_payload._has_player_info` on a parsed player. -/
def has_player_info (info : ParsedPlayer) : Bool :=
  if !(jIsNull info.name || jIsEmptyStr info.name) then true
  else if !jIsNull info.points then true
  else !info.sets.isEmpty

/-- `_merge_partial_payload._has_content`.  (An `int` falls through all
`isinstance` checks to the final `return True`, so `0` counts as
content.) -/
def has_content : JValue → Bool
  | .null => false
  | .str s => pyStrip s ≠ ""
  | .bool b => b
  | .obj fields => !fields.isEmpty
  | .arr items => !items.isEmpty
  | .num _ => true

/-- The candidate-selection loop shared by the name and points lookups of
`_player_has_payload`: first key whose value is a non-blank string or a
non-`None` non-string. -/
def findCandidate (pr : RawMap) : List String → Option JValue
  | [] => none
  | k :: ks =>
    match alookup pr k with
    | none => findCandidate pr ks
    | some c =>
      match c with
      | .str s => if pyStrip s ≠ "" then some c else findCandidate pr ks
      | .null => findCandidate pr ks
      | _ => some c

/-- Values of keys containing `"set"` (case-insensitively). -/
def setValuesFrom (m : RawMap) : List JValue :=
  m.filterMap (fun kv => if strIn "set" (pyLower kv.1) then some kv.2 else none)

/-- `_merge_partial_payload._player_has_payload`. -/
def player_has_payload (player_raw : Option RawMap) : Bool :=
  match player_raw with
  | none => false
  | some pr =>
    let nameOk :=
      match findCandidate pr ["name", "Name", "Value"] with
      | some (.str s) => pyStrip s ≠ ""
      | _ => false
    if !nameOk then false
    else
      let has_points := (findCandidate pr ["points", "Points"]).isSome
      let fromMapping :=
        match jGetD pr "sets" with
        | .obj sm => setValuesFrom sm
        | _ => []
      let set_values := if !fromMapping.isEmpty then fromMapping
        else setValuesFrom pr
      let has_sets := set_values.any has_content
      has_points || has_sets

/-- The per-suffix update of `merged_players` inside
`_merge_partial_payload` (first loop body, for a suffix whose parsed
info passes `_has_player_info`). -/
def applyPlayerInfo (pe : RawMap) (info : ParsedPlayer) : RawMap :=
  let pe1 := if !jIsNull info.name then setKey pe "name" info.name else pe
  let pe2 :=
    if !jIsNull info.points then setKey pe1 "points" info.points else pe1
  if !info.sets.isEmpty then
    let existing_sets : RawMap :=
      match jGetD pe2 "sets" with
      | .obj s => s
      | _ => []
    setKey pe2 "sets" (.obj (updList existing_sets info.sets))
  else
    setDefaultKey pe2 "sets" (.obj [])

/-- First merging loop of `_merge_partial_payload` over both suffixes. -/
def mergePlayersInfo (players : List (String × RawMap))
    (parsed : List (String × ParsedPlayer)) :
    List String → List (String × RawMap)
  | [] => players
  | sfx :: rest =>
    let info := (alookup parsed sfx).getD ⟨.null, .null, []⟩
    let players' :=
      if has_player_info info then
        let m1 := setDefaultKey players sfx []
        let pe := (alookup m1 sfx).getD []
        setKey m1 sfx (applyPlayerInfo pe info)
      else players
    mergePlayersInfo players' parsed rest

/-- Second loop of `_merge_partial_payload`: ensure `sets` exists and
recompute `is_serving` for every present player. -/
def applyServing (players : List (String × RawMap)) (serving : Option String) :
    List String → List (String × RawMap)
  | [] => players
  | sfx :: rest =>
    let players' :=
      match alookup players sfx with
      | none => players
      | some pe =>
        let pe1 := setDefaultKey pe "sets" (.obj [])
        setKey players sfx
          (setKey pe1 "is_serving" (.bool (serving == some sfx)))
    applyServing players' serving rest

/-- The merged `players` dict of `_merge_partial_payload`. -/
def mergedPlayersOf (players : List (String × RawMap)) (raw : RawMap) :
    List (String × RawMap) :=
  let parsed := parse_overlay_json raw
  applyServing (mergePlayersInfo players parsed.players ["A", "B"])
    parsed.serving ["A", "B"]

/-- The status computed at the end of `_merge_partial_payload`. -/
def mergeStatusOf (merged_players : List (String × RawMap)) : String :=
  if player_has_payload (alookup merged_players "A") &&
      player_has_payload (alookup merged_players "B") then
    SNAPSHOT_STATUS_OK
  else SNAPSHOT_STATUS_NO_DATA

/-- `_merge_partial_payload`: merge one mapped command response into a
resource's snapshot.  The wall-clock `_now_iso()` is passed in as
`now_iso`; the snapshot-store bookkeeping (deep copies, the
`snapshots[...]` write-back) is pure state passing here.  The
`except`-guard around `parse_overlay_json` is dead for dict inputs. -/
def merge_partial_payload (now_iso : String) (entry : Entry)
    (partial_ : RawMap) : Entry :=
  let raw := mergeRawMap entry.raw partial_
  let parsed := parse_overlay_json raw
  let merged_players := mergedPlayersOf entry.players raw
  { entry with
    raw := raw
    last_updated := some now_iso
    error := none
    pause_minutes :=
      if entry.pause_minutes = 0 then COMMAND_ERROR_PAUSE_MINUTES
      else entry.pause_minutes
    pause_active := false
    pause_until := none
    badges := []
    available := (parsed.available).getD false
    players := merged_players
    serving := parsed.serving
    status := mergeStatusOf merged_players }

def UPDATE_INTERVAL_SECONDS : ℚ := 1
def NAME_STABILIZATION_TICKS : ℕ := 3
def PER_CONTROLAPP_MIN_INTERVAL_SECONDS : ℚ := 1
def GLOBAL_RATE_LIMIT_PER_SECOND : ℚ := 2
def GLOBAL_TOKEN_BUCKET_CAPACITY : ℚ := GLOBAL_RATE_LIMIT_PER_SECOND
def MAX_RETRY_ATTEMPTS : ℕ := 3
def COMMAND_ERROR_PAUSE_THRESHOLD : ℕ := 3
def UNAVAILABLE_SLOW_POLL_SECONDS : ℚ := 60
def NOT_FOUND_COOLDOWN_SECONDS : ℚ := 600

/-- The float comparison slack `1e-9` used by `is_due` and
`_throttle_request`. -/
def EPS9 : ℚ := 1 / 1000000000

/-- `CourtPhase`. -/
inductive CourtPhase where
  | IDLE_NAMES
  | PRE_START
  | LIVE_POINTS
  | LIVE_GAMES
  | TIEBREAK7
  | LIVE_SETS
  | SUPER_TB10
  | FINISHED
deriving DecidableEq

/-- `CourtPollingStage`. -/
inductive CourtPollingStage where
  | NORMAL
  | OFF
deriving DecidableEq

/-- `ScoreSnapshot`. -/
structure ScoreSnapshot where
  points_known : Bool
  points_any : Bool
  points_positive : Bool
  points_zero : Bool
  games_known : Bool
  games_any : Bool
  games_positive : Bool
  sets_present : Bool
  sets_completed : ℕ
  total_sets : ℕ
  sets_won : ℕ × ℕ
  tie_break_active : Bool
  super_tb_active : Bool

/-- `CommandSpec`. -/
structure CommandSpec where
  name : String
  interval : ℚ
  offset : ℚ := 0
  initial_delay : ℚ := 0
deriving DecidableEq

/-- `CommandSchedule`. -/
structure CommandSchedule where
  spec : CommandSpec
  next_due : Option ℚ := none
  last_run : Option ℚ := none
deriving DecidableEq

/-- `CommandSchedule.reset`. -/
def CommandSchedule.reset (s : CommandSchedule) (base_time now : ℚ) :
    CommandSchedule :=
  let target := base_time + s.spec.initial_delay + s.spec.offset
  let target := if target < now then now else target
  { s with next_due := some target, last_run := none }

/-- `CommandSchedule.is_due`. -/
def CommandSchedule.is_due (s : CommandSchedule) (now : ℚ) : Bool :=
  match s.next_due with
  | none => false
  | some nd => now + EPS9 ≥ nd

/-- `CommandSchedule.mark_run`. -/
def CommandSchedule.mark_run (s : CommandSchedule) (now : ℚ) :
    CommandSchedule :=
  let base := s.next_due.getD now
  { s with
    last_run := some now
    next_due := some (max (now + s.spec.interval) (base + s.spec.interval)) }

/-- `_NORMAL_COMMAND_SPECS` (every phase is a key of the dict). -/
def NORMAL_COMMAND_SPECS : CourtPhase → List CommandSpec
  | .IDLE_NAMES =>
    [{ name := "GetNamePlayerA", interval := 3, offset := 0,
       initial_delay := 0 },
     { name := "GetNamePlayerB", interval := 3, offset := 3/2,
       initial_delay := 0 },
     { name := "ProbeAvailability", interval := 60, offset := 0,
       initial_delay := 0 }]
  | .PRE_START => [{ name := "GetPoints", interval := 2, initial_delay := 2 }]
  | .LIVE_POINTS => [{ name := "GetPoints", interval := 1, initial_delay := 1 }]
  | .LIVE_GAMES =>
    [{ name := "GetGames", interval := 4, initial_delay := 4 },
     { name := "ProbePoints", interval := 6, initial_delay := 6 }]
  | .TIEBREAK7 => [{ name := "GetPoints", interval := 1, initial_delay := 1 }]
  | .LIVE_SETS =>
    [{ name := "GetSets", interval := 8, initial_delay := 8 },
     { name := "ProbeGames", interval := 6, offset := 3, initial_delay := 6 }]
  | .SUPER_TB10 => [{ name := "GetPoints", interval := 1, initial_delay := 1 }]
  | .FINISHED =>
    [{ name := "GetNamePlayerA", interval := 30, initial_delay := 1 },
     { name := "GetNamePlayerB", interval := 30, offset := 15,
       initial_delay := 1 }]

/-- `_OFF_STAGE_COMMAND_SPECS[None]` — the only key of the OFF-stage
dict, reached through the `stage_specs.get(None, [])` fallback because
no phase is a key of that dict. -/
def OFF_STAGE_COMMAND_SPECS : List CommandSpec :=
  [{ name := "OffProbeAvailability", interval := 60, offset := 0,
     initial_delay := 0 }]

/-- `_COMMAND_SPECS[stage].get(phase)` followed by the `get(None, [])`
fallback. -/
def commandSpecsFor (stage : CourtPollingStage) (phase : CourtPhase) :
    List CommandSpec :=
  match stage with
  | .NORMAL => NORMAL_COMMAND_SPECS phase
  | .OFF => OFF_STAGE_COMMAND_SPECS

/-- `CourtState`.  `phase_offset` is set once from a SHA-1 fingerprint of
the court id in `__post_init__` (`_default_offset`, a value in
`[0, 6.99]`); it is carried here as a plain field. -/
structure CourtState where
  kort_id : String
  phase : CourtPhase := .IDLE_NAMES
  stage : CourtPollingStage := .NORMAL
  last_polled : ℚ := 0
  phase_started_at : ℚ := 0
  stage_started_at : ℚ := 0
  finished_name_signature : Option String := none
  finished_raw_signature : Option String := none
  phase_offset : ℚ := 0
  command_schedules : List (String × CommandSchedule) := []
  command_history : List (ℚ × String) := []
  last_command : Option String := none
  last_command_at : Option ℚ := none
  last_name_signature : Option String := none
  name_stability : ℕ := 0
  last_score_snapshot : Option ScoreSnapshot := none
  points_positive_streak : ℕ := 0
  points_absent_streak : ℕ := 0
  command_error_streak : ℕ := 0
  command_error_streak_by_spec : List (String × ℕ) := []
  paused_until : Option ℚ := none
  availability_paused_until : Option ℚ := none
  tick_counter : ℕ := 0
  next_player_by_spec : List (String × String) := []
  pending_players_by_spec : List (String × List (String × Option String)) := []

/-- `CourtState._configure_phase_commands`. -/
def CourtState.configure_phase_commands (st : CourtState) (now : ℚ) :
    CourtState :=
  let specs := commandSpecsFor st.stage st.phase
  let base_time := if st.stage = .OFF then now else now + st.phase_offset
  { st with
    command_schedules :=
      specs.map (fun sp =>
        (sp.name, CommandSchedule.reset { spec := sp } base_time now)) }

/-- `CourtState.mark_polled`. -/
def CourtState.mark_polled (st : CourtState) (now : ℚ) : CourtState :=
  { st with last_polled := now, tick_counter := st.tick_counter + 1 }

/-- `CourtState.transition`. -/
def CourtState.transition (st : CourtState) (phase : CourtPhase) (now : ℚ) :
    CourtState :=
  if phase = st.phase then st
  else
    let st := { st with
      phase := phase
      phase_started_at := now
      pending_players_by_spec := []
      next_player_by_spec := []
      finished_name_signature :=
        if phase ≠ .FINISHED then none else st.finished_name_signature
      finished_raw_signature :=
        if phase ≠ .FINISHED then none else st.finished_raw_signature }
    st.configure_phase_commands now

def hexDigitChar (n : ℕ) : Char :=
  if n < 10 then Char.ofNat (48 + n) else Char.ofNat (97 + (n - 10))

def hex4 (n : ℕ) : String :=
  String.mk [hexDigitChar (n / 4096 % 16), hexDigitChar (n / 256 % 16),
    hexDigitChar (n / 16 % 16), hexDigitChar (n % 16)]

/-- `json.dumps` escaping of one character (`ensure_ascii=True`); code
points above `0xFFFF` (surrogate pairs in CPython) do not occur in the
payloads and are rendered with a single escape here. -/
def jsonEscChar (c : Char) : String :=
  if c = '"' then "\\\""
  else if c = '\\' then "\\\\"
  else if c = '\n' then "\\n"
  else if c = '\t' then "\\t"
  else if c = '\r' then "\\r"
  else if c.toNat < 32 || c.toNat > 126 then "\\u" ++ hex4 c.toNat
  else String.singleton c

def jsonString (s : String) : String :=
  "\"" ++ String.join (s.toList.map jsonEscChar) ++ "\""

def insertByKey (kv : String × String) :
    List (String × String) → List (String × String)
  | [] => [kv]
  | hd :: tl =>
    if kv.1 < hd.1 then kv :: hd :: tl else hd :: insertByKey kv tl

/-- `sorted(d.items())` on already-rendered entries (keys are unique in
a dict, so comparing keys suffices). -/
def sortByKey : List (String × String) → List (String × String)
  | [] => []
  | hd :: tl => insertByKey hd (sortByKey tl)

mutual

/-- `json.dumps(value, sort_keys=True)`. -/
def jsonDumps : JValue → String
  | .null => "null"
  | .bool b => if b then "true" else "false"
  | .num n => toString n
  | .str s => jsonString s
  | .obj fields =>
    "\x7b" ++
      String.intercalate ", "
        ((sortByKey (jsonFields fields)).map
          (fun kv => jsonString kv.1 ++ ": " ++ kv.2)) ++ "\x7d"
  | .arr items => "[" ++ String.intercalate ", " (jsonItems items) ++ "]"

def jsonFields : List (String × JValue) → List (String × String)
  | [] => []
  | (k, v) :: rest => (k, jsonDumps v) :: jsonFields rest

def jsonItems : List JValue → List String
  | [] => []
  | v :: rest => jsonDumps v :: jsonItems rest

end

/-- `results_state_machine._fingerprint` (the `TypeError` fallback is
dead: every embedded value serializes). -/
def fingerprint (data : RawMap) : String := jsonDumps (.obj data)

/-- `CourtState.compute_name_signature`. -/
def CourtState.compute_name_signature (_st : CourtState) (snapshot : Entry) :
    String :=
  let players := snapshot.players
  let nameOf := fun (sfx : String) =>
    let p := (alookup players sfx).getD []
    pyStr (pyOr (jGetD p "name") (.str ""))
  nameOf "A" ++ "|" ++ nameOf "B"

/-- `CourtState.compute_raw_signature` (the snapshot's `raw` is always a
dict here). -/
def CourtState.compute_raw_signature (_st : CourtState) (snapshot : Entry) :
    String :=
  fingerprint snapshot.raw

/-- `CourtState.update_name_stability`. -/
def CourtState.update_name_stability (st : CourtState) (signature : String)
    (required_ticks : ℕ) : CourtState :=
  let parts := if signature ≠ "" then
      (splitOnCharStr '|' signature).map (fun p => pyStrip p)
    else []
  let has_all_names := !parts.isEmpty && parts.all (fun p => p ≠ "")
  if !has_all_names then
    { st with name_stability := 0, last_name_signature := some signature }
  else if some signature = st.last_name_signature then
    let cap := if required_ticks > 0 then required_ticks else 10000
    { st with name_stability := min (st.name_stability + 1) cap
              last_name_signature := some signature }
  else
    { st with name_stability := 1, last_name_signature := some signature }

/-- The per-suffix point value used by `compute_score_snapshot`:
`players[sfx].points`, falling back to `raw[PointsPlayer<sfx>]` when it
is `None`, `""` or `"-"`. -/
def scorePointValue (snapshot : Entry) (sfx : String) : JValue :=
  let player := (alookup snapshot.players sfx).getD []
  let value := jGetD player "points"
  if jIsNull value || jIsEmptyStr value ||
      (match value with | .str s => s == "-" | _ => false) then
    jGetD snapshot.raw ("PointsPlayer" ++ sfx)
  else value

/-- The per-suffix game value of `compute_score_snapshot`: the first of
`CurrentGamePlayerX`, `GamesPlayerX`, `GamePlayerX` that is a key of
`raw`. -/
def scoreGameValue (raw : RawMap) (sfx : String) : Option Int :=
  let keys := ["CurrentGamePlayer" ++ sfx, "GamesPlayer" ++ sfx,
    "GamePlayer" ++ sfx]
  let value :=
    match keys.find? (fun k => hasKey raw k) with
    | some k => jGetD raw k
    | none => .null
  normalize_int value

/-- The list of set scores of `compute_score_snapshot` (indices 1–7,
skipping those with both sides unknown). -/
def scoreSetScores (raw : RawMap) : List (Option Int × Option Int) :=
  (List.range' 1 7).filterMap (fun index =>
    let a := normalize_int (jGetD raw ("Set" ++ toString index ++ "PlayerA"))
    let b := normalize_int (jGetD raw ("Set" ++ toString index ++ "PlayerB"))
    match a, b with
    | none, none => none
    | _, _ => some (a, b))

/-- `CourtState.compute_score_snapshot` (pure part; the assignment to
`last_score_snapshot` is threaded in `process_snapshot`). -/
def computeScoreSnapshot (snapshot : Entry) : ScoreSnapshot :=
  let raw := snapshot.raw
  let point_categories :=
    [point_category (scorePointValue snapshot "A"),
     point_category (scorePointValue snapshot "B")]
  let points_known := point_categories.all (fun c => c ≠ "unknown")
  let points_any := point_categories.any (fun c => c ≠ "unknown")
  let points_positive := point_categories.any (fun c => c == "positive")
  let points_zero := points_known && !points_positive
  let game_values := [scoreGameValue raw "A", scoreGameValue raw "B"]
  let games_known := game_values.all (fun v => v.isSome)
  let games_any := game_values.any (fun v => v.isSome)
  let games_positive := game_values.any (fun v => v.getD 0 > 0)
  let set_scores := scoreSetScores raw
  let total_sets := set_scores.length
  let sets_completed :=
    (set_scores.filter (fun ab => ab.1.isSome && ab.2.isSome)).length
  let sets_won_a :=
    (set_scores.filter (fun ab =>
      match ab with
      | (some a, some b) => a > b
      | _ => false)).length
  let sets_won_b :=
    (set_scores.filter (fun ab =>
      match ab with
      | (some a, some b) => b > a
      | _ => false)).length
  let sets_present := total_sets > 0
  let raw_tie_break :=
    ["TieBreak", "Tiebreak", "MatchTieBreak", "SetTieBreak",
      "TieBreakInProgress"].any (fun k => truthy (jGetD raw k))
  let super_tb_active :=
    ["SuperTieBreak", "SuperTiebreak", "MatchSuperTieBreak",
      "SuperTieBreakInProgress"].any (fun k => truthy (jGetD raw k))
  let tie_break_active := raw_tie_break && !super_tb_active
  { points_known := points_known
    points_any := points_any
    points_positive := points_positive
    points_zero := points_zero
    games_known := games_known
    games_any := games_any
    games_positive := games_positive
    sets_present := sets_present
    sets_completed := sets_completed
    total_sets := total_sets
    sets_won := (sets_won_a, sets_won_b)
    tie_break_active := tie_break_active
    super_tb_active := super_tb_active }

/-- `CourtState.update_score_stability`. -/
def CourtState.update_score_stability (st : CourtState)
    (score : ScoreSnapshot) : CourtState :=
  let st :=
    if score.points_positive then
      { st with
        points_positive_streak := min (st.points_positive_streak + 1) 10000 }
    else { st with points_positive_streak := 0 }
  if score.sets_present && !score.points_any then
    { st with points_absent_streak := min (st.points_absent_streak + 1) 10000 }
  else { st with points_absent_streak := 0 }

/-- `CourtState.effective_pause_until`. -/
def CourtState.effective_pause_until (st : CourtState) : Option ℚ :=
  match st.paused_until, st.availability_paused_until with
  | none, none => none
  | some a, none => some a
  | none, some b => some b
  | some a, some b => some (max a b)

/-- `CourtState.is_paused`. -/
def CourtState.is_paused (st : CourtState) (now : ℚ) : Bool :=
  match st.effective_pause_until with
  | none => false
  | some v => v > now

/-- `CourtState.clear_pause`. -/
def CourtState.clear_pause (st : CourtState) : CourtState :=
  { st with
    paused_until := none
    command_error_streak := 0
    command_error_streak_by_spec := [] }

/-- `CourtState.apply_availability_pause`. -/
def CourtState.apply_availability_pause (st : CourtState) (now duration : ℚ) :
    CourtState :=
  let candidate_until := now + duration
  match st.availability_paused_until with
  | none => { st with availability_paused_until := some candidate_until }
  | some cur =>
    if candidate_until > cur then
      { st with availability_paused_until := some candidate_until }
    else st

/-- `CourtState.clear_availability_pause`. -/
def CourtState.clear_availability_pause (st : CourtState) : CourtState :=
  { st with availability_paused_until := none }

/-- Python truthiness of an `Optional[str]` (used for the stored
`finished_*_signature` guards). -/
def sigTruthy : Option String → Bool
  | some s => s ≠ ""
  | none => false

/-- The `has_any_name` test at the top of `_classify_phase`. -/
def has_any_name_of (snapshot : Entry) (st : CourtState) : Bool :=
  (splitOnCharStr '|' (st.compute_name_signature snapshot)).any
    (fun p => pyStrip p ≠ "")

/-- `_classify_phase`, transcribed rule for rule (first match wins; the
Python locals `name_signature`/`has_any_name`/`finished_sets` are
inlined). -/
def classify_phase (snapshot : Entry) (st : CourtState)
    (score : ScoreSnapshot) : CourtPhase :=
  if snapshot.status ≠ SNAPSHOT_STATUS_OK ∧ !has_any_name_of snapshot st then
    .IDLE_NAMES
  else if snapshot.status ≠ SNAPSHOT_STATUS_OK ∧
      st.name_stability < NAME_STABILIZATION_TICKS then .IDLE_NAMES
  else if snapshot.status = SNAPSHOT_STATUS_OK ∧
      !has_any_name_of snapshot st then .IDLE_NAMES
  else if st.phase = .IDLE_NAMES ∧ NAME_STABILIZATION_TICKS > 0 ∧
      st.name_stability < NAME_STABILIZATION_TICKS then .IDLE_NAMES
  else if st.name_stability < NAME_STABILIZATION_TICKS ∧ !score.points_any ∧
      !score.games_any ∧ !score.sets_present then .IDLE_NAMES
  else if (score.sets_completed ≥ 1 ∧
      (max score.sets_won.1 score.sets_won.2 ≥ 2 ∨
        score.sets_completed ≥ 3)) ∧ st.points_absent_streak ≥ 2 then
    .FINISHED
  else if score.super_tb_active then .SUPER_TB10
  else if score.tie_break_active then .TIEBREAK7
  else if score.sets_present ∧ score.sets_completed > 0 then .LIVE_SETS
  else if score.games_positive then .LIVE_GAMES
  else if st.points_positive_streak ≥ 2 then .LIVE_POINTS
  else if score.points_any ∨ score.games_any ∨ score.sets_present then
    .PRE_START
  else .PRE_START

/-- `_update_command_error_state`: returns the updated state together
with `(pause_active, new_pause_started)`. -/
def update_command_error_state (st : CourtState) (now : ℚ)
    (spec_name : Option String) : CourtState × Bool × Bool :=
  let previous_pause_until := st.paused_until.getD 0
  let st := { st with
    command_error_streak := min (st.command_error_streak + 1) 10000 }
  let st :=
    match spec_name with
    | some name =>
      let current := (alookup st.command_error_streak_by_spec name).getD 0 + 1
      { st with command_error_streak_by_spec :=
          setKey st.command_error_streak_by_spec name (min current 10000) }
    | none => st
  if st.command_error_streak ≥ COMMAND_ERROR_PAUSE_THRESHOLD then
    let pause_seconds : ℚ := (COMMAND_ERROR_PAUSE_MINUTES : ℚ) * 60
    let candidate_until := now + pause_seconds
    let st :=
      match st.paused_until with
      | none => { st with paused_until := some candidate_until }
      | some cur =>
        if candidate_until > cur then
          { st with paused_until := some candidate_until }
        else st
    let pause_active :=
      match st.paused_until with
      | some v => v > now
      | none => false
    let new_pause_started := pause_active && previous_pause_until ≤ now
    (st, pause_active, new_pause_started)
  else (st, false, false)

/-- The state just before classification inside `_process_snapshot`
(`mark_polled`, name-stability and score-stability updates applied). -/
def preClassifyState (st0 : CourtState) (snapshot : Entry) (now : ℚ) :
    CourtState :=
  let st1 := st0.mark_polled now
  let name_signature := st1.compute_name_signature snapshot
  let st2 := st1.update_name_stability name_signature NAME_STABILIZATION_TICKS
  let score := computeScoreSnapshot snapshot
  let st3 := { st2 with last_score_snapshot := some score }
  st3.update_score_stability score

/-- `_process_snapshot` (the `_archive_snapshot` call on entry into
`FINISHED` touches only the snapshot store, not the `CourtState`, and is
therefore not part of this state transformer). -/
def process_snapshot (st0 : CourtState) (snapshot : Entry) (now : ℚ) :
    CourtState :=
  let name_signature := st0.compute_name_signature snapshot
  let score := computeScoreSnapshot snapshot
  let st4 := preClassifyState st0 snapshot now
  let desired := classify_phase snapshot st4 score
  let raw_signature := st4.compute_raw_signature snapshot
  if st4.phase = .FINISHED ∧ desired = .FINISHED ∧
      sigTruthy st4.finished_name_signature ∧
      some name_signature ≠ st4.finished_name_signature then
    st4.transition .IDLE_NAMES now
  else if st4.phase = .FINISHED ∧ desired = .FINISHED ∧
      sigTruthy st4.finished_raw_signature ∧
      some raw_signature ≠ st4.finished_raw_signature then
    st4.transition .IDLE_NAMES now
  else
    let st5 := st4.transition desired now
    let st6 :=
      if st5.phase = .FINISHED then
        { st5 with
          finished_name_signature := some name_signature
          finished_raw_signature := some raw_signature }
      else
        { st5 with
          finished_name_signature := none
          finished_raw_signature := none }
    let has_visibility_flag := snapshot.raw.any (fun kv =>
      strIn "overlayvisibility" (pyLower kv.1) || pyLower kv.1 == "overlayvisible")
    if snapshot.available = false ∧ has_visibility_flag then
      st6.apply_availability_pause now UNAVAILABLE_SLOW_POLL_SECONDS
    else if snapshot.available = true then
      st6.clear_availability_pause
    else st6

/-- `e.pop(k)` on an association list (dicts have unique keys; the first
occurrence is removed). -/
def removeKey {α : Type} : List (String × α) → String → List (String × α)
  | [], _ => []
  | (k', v) :: rest, k =>
    if k' = k then rest else (k', v) :: removeKey rest k

/-- The module-level throttle state of `results.py`
(`_global_token_balance`, `_global_tokens_last_refill`,
`_last_request_by_controlapp`, `_next_allowed_request_by_controlapp`).
`_global_tokens_last_refill` is initialised to `time.time()` at import,
so it is carried as a plain `ℚ` (the `None` re-seed branch is dead). -/
structure ThrottleState where
  global_token_balance : ℚ := GLOBAL_TOKEN_BUCKET_CAPACITY
  global_tokens_last_refill : ℚ := 0
  last_request_by_controlapp : List (String × ℚ) := []
  next_allowed_request_by_controlapp : List (String × ℚ) := []

/-- The refill step at the top of `_throttle_request`'s locked section. -/
def throttleRefill (s : ThrottleState) (now : ℚ) : ThrottleState :=
  let elapsed := max 0 (now - s.global_tokens_last_refill)
  if elapsed > 0 then
    { s with
      global_token_balance := min GLOBAL_TOKEN_BUCKET_CAPACITY
        (s.global_token_balance + elapsed * GLOBAL_RATE_LIMIT_PER_SECOND)
      global_tokens_last_refill := now }
  else s

/-- One pass of `_throttle_request`'s locked section at time `now`:
refill, evaluate the three gates, and admit (consuming a token and
stamping the per-app last-request time) or refuse.  The enclosing
`while True` loop simply re-runs this pass at a later time. -/
def throttleAttempt (s0 : ThrottleState) (controlapp_id : String)
    (now : ℚ) : ThrottleState × Bool :=
  let s := throttleRefill s0 now
  let wait_for_controlapp :=
    match alookup s.last_request_by_controlapp controlapp_id with
    | some last => (last + PER_CONTROLAPP_MIN_INTERVAL_SECONDS) - now
    | none => 0
  let cooldown_until :=
    alookup s.next_allowed_request_by_controlapp controlapp_id
  let wait_for_cooldown :=
    match cooldown_until with
    | some c => c - now
    | none => 0
  let global_available := s.global_token_balance ≥ 1 - EPS9
  if wait_for_controlapp ≤ 0 ∧ wait_for_cooldown ≤ 0 ∧ global_available then
    let s := { s with
      last_request_by_controlapp :=
        setKey s.last_request_by_controlapp controlapp_id now
      global_token_balance := max 0 (s.global_token_balance - 1) }
    let s :=
      match cooldown_until with
      | some c =>
        if now + EPS9 ≥ c then
          { s with next_allowed_request_by_controlapp :=
              removeKey s.next_allowed_request_by_controlapp controlapp_id }
        else s
      | none => s
    (s, true)
  else (s, false)

/-- `_schedule_controlapp_resume`. -/
def schedule_controlapp_resume (s : ThrottleState) (controlapp_id : String)
    (allowed_from : ℚ) : ThrottleState :=
  let allowed := max 0 allowed_from
  match alookup s.next_allowed_request_by_controlapp controlapp_id with
  | none =>
    { s with next_allowed_request_by_controlapp :=
        setKey s.next_allowed_request_by_controlapp controlapp_id allowed }
  | some current =>
    if allowed > current then
      { s with next_allowed_request_by_controlapp :=
          setKey s.next_allowed_request_by_controlapp controlapp_id allowed }
    else s

/-- One event seen by the shared throttle state: an admission attempt of
`_throttle_request` at a time, or a `_schedule_controlapp_resume` call. -/
inductive ThrottleEvent where
  | attempt (now : ℚ) (controlapp_id : String)
  | resume (controlapp_id : String) (allowed_from : ℚ)

def throttleStep (s : ThrottleState) : ThrottleEvent → ThrottleState
  | .attempt now app => (throttleAttempt s app now).1
  | .resume app allowed => schedule_controlapp_resume s app allowed

def runThrottle (s : ThrottleState) (events : List ThrottleEvent) :
    ThrottleState :=
  events.foldl throttleStep s

/-- Number of admitted attempts whose time lies in the closed window
`[t0, t1]` while executing an event trace. -/
def countAdmittedIn (s : ThrottleState) (t0 t1 : ℚ) :
    List ThrottleEvent → ℕ
  | [] => 0
  | .resume app allowed :: rest =>
    countAdmittedIn (schedule_controlapp_resume s app allowed) t0 t1 rest
  | .attempt now app :: rest =>
    let r := throttleAttempt s app now
    (if r.2 ∧ t0 ≤ now ∧ now ≤ t1 then 1 else 0) +
      countAdmittedIn r.1 t0 t1 rest

/-- Attempt times are non-decreasing and bounded below by `lb` (wall
clock time as observed under the lock never runs backwards). -/
def eventsMonotone (lb : ℚ) : List ThrottleEvent → Bool
  | [] => true
  | .resume _ _ :: rest => eventsMonotone lb rest
  | .attempt now _ :: rest => decide (lb ≤ now) && eventsMonotone now rest

/-- One classified HTTP exchange of the `_update_once` attempt loop. -/
inductive RespOutcome where
  | timeout
  | exception
  | http (status : ℕ) (retryAfter : Option ℚ) (resetAt : Option ℚ)
      (dailyRemaining : Option Int) (dailyReset : Option ℚ)
      (body : Option JValue)

/-- How one execution of the attempt loop terminated. -/
inductive CmdResult where
  | success
  | fatal
  | rateLimited
  | exhausted
deriving DecidableEq

/-- The cooldown deadline computed in the 429 branch of `_update_once`
(`retryAfter` is the parsed `Retry-After` in relative seconds,
`resetAt` the parsed `X-RateLimit-Reset` as an absolute timestamp). -/
def cooldown429 (now : ℚ) (retry_after_seconds reset_timestamp : Option ℚ) :
    ℚ :=
  let cooldown_candidates : List ℚ :=
    (match retry_after_seconds with
     | some ra => [now + ra]
     | none => []) ++
    (match reset_timestamp with
     | some rs => [max now rs]
     | none => [])
  match cooldown_candidates with
  | [] => now + PER_CONTROLAPP_MIN_INTERVAL_SECONDS
  | c :: cs => cs.foldl max c

/-- The `CourtState` effect of `_handle_command_error` (the snapshot
entry rewrite is store-level and not part of the court state). -/
def handle_command_error_state (state : CourtState) (now : ℚ)
    (spec_name : Option String) : CourtState :=
  (update_command_error_state state now spec_name).1

/-- Result of running the attempt loop for one due command. -/
structure ExecOutcome where
  calls : ℕ
  result : CmdResult
  scheduled : List ℚ
  state : CourtState

/-- The quota guard run on every response
(`_parse_singular_daily_calls_header` + the `remaining <= 0` check):
the resume deadlines it schedules, in order. -/
def quotaSched (dailyRemaining : Option Int) (dailyReset : Option ℚ) :
    List ℚ :=
  match dailyRemaining, dailyReset with
  | some rem, some reset => if rem ≤ 0 then [reset] else []
  | _, _ => []

/-- The `while True` attempt loop of `_update_once` for one due command,
driven by an oracle giving the outcome of the `i`-th HTTP call.
`calls` counts HTTP calls issued, `scheduled` the deadlines handed to
`_schedule_controlapp_resume`, `state` the resulting `CourtState`.
(`current_time` refreshes between attempts in the source; the claims
proved about this loop do not depend on that drift, so `now` is held
fixed.) -/
def run_attempt_loop (oracle : ℕ → RespOutcome) (state : CourtState)
    (now : ℚ) (spec_name : String) (attempt : ℕ) : ExecOutcome :=
  match oracle attempt with
  | .exception =>
    { calls := 1, result := .fatal, scheduled := []
      state := handle_command_error_state state now (some spec_name) }
  | .timeout =>
    if attempt ≥ MAX_RETRY_ATTEMPTS then
      { calls := 1, result := .exhausted, scheduled := []
        state := handle_command_error_state state now (some spec_name) }
    else
      let rest := run_attempt_loop oracle state now spec_name (attempt + 1)
      { rest with calls := rest.calls + 1 }
  | .http status ra rs dailyRem dailyReset body =>
    let qs := quotaSched dailyRem dailyReset
    if status = 404 then
      { calls := 1, result := .fatal
        scheduled := qs ++ [now + NOT_FOUND_COOLDOWN_SECONDS]
        state := handle_command_error_state state now (some spec_name) }
    else if status = 400 then
      { calls := 1, result := .fatal, scheduled := qs
        state := handle_command_error_state state now (some spec_name) }
    else if 400 ≤ status ∧ status < 500 ∧ status ≠ 404 ∧ status ≠ 429 then
      { calls := 1, result := .fatal, scheduled := qs
        state := handle_command_error_state state now (some spec_name) }
    else if status = 429 then
      { calls := 1, result := .rateLimited
        scheduled := qs ++ [cooldown429 now ra rs]
        state := (update_command_error_state state now (some spec_name)).1 }
    else if status ≥ 500 then
      if attempt ≥ MAX_RETRY_ATTEMPTS then
        { calls := 1, result := .exhausted, scheduled := qs
          state := handle_command_error_state state now (some spec_name) }
      else
        let rest := run_attempt_loop oracle state now spec_name (attempt + 1)
        { rest with calls := rest.calls + 1, scheduled := qs ++ rest.scheduled }
    else
      match body with
      | none =>
        { calls := 1, result := .fatal, scheduled := qs
          state := handle_command_error_state state now (some spec_name) }
      | some _ =>
        { calls := 1, result := .success, scheduled := qs, state := state }
termination_by MAX_RETRY_ATTEMPTS - attempt
decreasing_by
  all_goals omega

/-- One full command exchange: the attempt loop followed by
`state.clear_pause()` on full success (`_update_once` lines 1922–1923). -/
def run_command_exchange (oracle : ℕ → RespOutcome) (state : CourtState)
    (now : ℚ) (spec_name : String) : ExecOutcome :=
  let out := run_attempt_loop oracle state now spec_name 0
  if out.result = .success then { out with state := out.state.clear_pause }
  else out

/-! Concrete instances used by scenario parts of the specification. -/

/-- The one-field payload `{NamePlayerA: "Ann"}` of the spec scenario. -/
def annPayload : RawMap := [("NamePlayerA", JValue.str "Ann")]

/-- Potential function of the token bucket: balance minus rate times the
last refill time.  Refills never increase it; each admission decreases
it by the consumed amount (at least `1 - 1e-9`). -/
def throttlePsi (s : ThrottleState) : ℚ :=
  s.global_token_balance -
    GLOBAL_RATE_LIMIT_PER_SECOND * s.global_tokens_last_refill

/-- Well-formedness of a mapped payload as a Python dict: distinct top
level keys, and distinct keys inside `PlayerA`/`PlayerB` dict values
(automatic for values produced by `json`/`_map_command_response`). -/
def objKeysNodup : JValue → Bool
  | .obj vfs => decide (keysOf vfs).Nodup
  | _ => true

def WFpartial (p : RawMap) : Bool :=
  decide ((keysOf p).Nodup) &&
    p.all (fun kv =>
      if kv.1 == "PlayerA" || kv.1 == "PlayerB" then objKeysNodup kv.2
      else true)

/-- A concrete court state with stage NORMAL and per-court phase offset
`2` (counterexample input for the schedule seeding claim). -/
def offsetCourtState : CourtState :=
  { kort_id := "k", phase := .IDLE_NAMES, stage := .NORMAL,
    phase_offset := 2 }

/-- The snapshot of the classifier counterexample: two completed sets in
`raw`, but no player names and status still `no-data`. -/
def twoSetsNoNamesSnapshot : Entry :=
  { ensure_snapshot_entry "1" with
    raw := [("Set1PlayerA", JValue.num 6), ("Set1PlayerB", JValue.num 4),
      ("Set2PlayerA", JValue.num 6), ("Set2PlayerB", JValue.num 4)] }

/-- A court state two ticks into a points-absent streak
(counterexample input for the classifier claim). -/
def absentStreakCourtState : CourtState :=
  { kort_id := "1", points_absent_streak := 2 }

/-- `offsetCourtState` in phase FINISHED (witness input). -/
def finishedOffsetCourtState : CourtState :=
  { kort_id := "k", phase := .FINISHED, stage := .NORMAL,
    phase_offset := 2 }

/-! ### Helper lemmas about the attempt loop -/

theorem run_attempt_loop_success_state (oracle : ℕ → RespOutcome)
    (st : CourtState) (now : ℚ) (spec : String) :
    ∀ (k attempt : ℕ), MAX_RETRY_ATTEMPTS - attempt ≤ k →
      (run_attempt_loop oracle st now spec attempt).result = .success →
      (run_attempt_loop oracle st now spec attempt).state = st := by
  intro k
  induction k with
  | zero =>
    intro attempt hk hres
    have hge : attempt ≥ MAX_RETRY_ATTEMPTS := by omega
    rw [run_attempt_loop] at hres ⊢
    cases h : oracle attempt with
    | exception => simp [h] at hres ⊢
    | timeout => simp [h, if_pos hge] at hres ⊢
    | http status ra rs dr dres body =>
      simp only [h] at hres ⊢
      split_ifs at hres ⊢ <;>
        first
          | rfl
          | (rcases body with _ | b <;> simp_all)
          | simp_all
  | succ k ih =>
    intro attempt hk hres
    rw [run_attempt_loop] at hres ⊢
    cases h : oracle attempt with
    | exception => simp [h] at hres ⊢
    | timeout =>
      simp only [h] at hres ⊢
      by_cases hge : attempt ≥ MAX_RETRY_ATTEMPTS
      · simp [if_pos hge] at hres
      · simp only [if_neg hge] at hres ⊢
        exact ih (attempt + 1) (by omega) hres
    | http status ra rs dr dres body =>
      simp only [h] at hres ⊢
      split_ifs at hres ⊢ <;>
        first
          | rfl
          | (exact ih (attempt + 1) (by omega) hres)
          | (rcases body with _ | b <;> simp_all)
          | simp_all

/-- A concrete court state with an active availability pause and a
non-zero error streak (witness input). -/
def pausedCourtState : CourtState :=
  { kort_id := "1"
    paused_until := some 3
    command_error_streak := 2
    command_error_streak_by_spec := [("GetPoints", 2)]
    availability_paused_until := some 10 }

/-- An oracle answering every call with a decodable HTTP 200. -/
def okOracle : ℕ → RespOutcome :=
  fun _ => .http 200 none none none none (some .null)

/-- C10: a fully successful command exchange (`clear_pause` after the
attempt loop) resets `paused_until` and both error-streak counters but
leaves `availability_paused_until` unchanged, so a resource with an
active availability pause still reports `is_paused` afterwards. -/
theorem clear_pause_frame (oracle : ℕ → RespOutcome) (st : CourtState)
    (now : ℚ) (spec : String)
    (hsucc : (run_command_exchange oracle st now spec).result = .success) :
    (run_command_exchange oracle st now spec).state.paused_until = none ∧
    (run_command_exchange oracle st now spec).state.command_error_streak = 0 ∧
    (run_command_exchange oracle st now
      spec).state.command_error_streak_by_spec = [] ∧
    (run_command_exchange oracle st now
      spec).state.availability_paused_until = st.availability_paused_until ∧
    (∀ (t v : ℚ), st.availability_paused_until = some v → t < v →
      (run_command_exchange oracle st now spec).state.is_paused t = true) := by
  have hres : (run_attempt_loop oracle st now spec 0).result = .success := by
    by_contra hne
    rw [run_command_exchange] at hsucc
    simp only [if_neg hne] at hsucc
    exact hne hsucc
  have hstate := run_attempt_loop_success_state oracle st now spec
    MAX_RETRY_ATTEMPTS 0 (by omega) hres
  have hx : (run_command_exchange oracle st now spec).state =
      st.clear_pause := by
    rw [run_command_exchange]
    simp only [if_pos hres, hstate]
  rw [hx]
  refine ⟨rfl, rfl, rfl, rfl, ?_⟩
  intro t v hv hlt
  simp [CourtState.is_paused, CourtState.effective_pause_until,
    CourtState.clear_pause, hv]
  exact hlt

/-- Witness for `clear_pause_frame`: after a concrete successful
exchange the resource with availability pause until `10` is still paused
at `5`. -/
theorem clear_pause_frame_witness :
    (run_command_exchange okOracle pausedCourtState 0
      "GetPoints").state.is_paused 5 = true := by
  have h := clear_pause_frame okOracle pausedCourtState 0 "GetPoints"
    (by rw [run_command_exchange, run_attempt_loop]; simp [okOracle])
  exact h.2.2.2.2 5 10 rfl (by norm_num)

theorem mark_run_spec_eq (s : CommandSchedule) (now : ℚ) :
    (s.mark_run now).spec = s.spec := rfl

/-- C7: `mark_run` seeds the new `next_due` to
`max (now + interval) (previous next_due + interval)` — which is exactly
`interval` past the later of `now` and the previous `next_due` — and
`next_due` is non-decreasing across any sequence of completed runs. -/
theorem mark_run_monotone (s : CommandSchedule) (now : ℚ)
    (hint : 0 ≤ s.spec.interval) :
    ((s.mark_run now).next_due =
      some (max now (s.next_due.getD now) + s.spec.interval)) ∧
    (∀ v, s.next_due = some v →
      v ≤ max now v + s.spec.interval ∧
      (s.mark_run now).next_due = some (max now v + s.spec.interval)) ∧
    (∀ (times : List ℚ) (v : ℚ), s.next_due = some v →
      ∃ w, (times.foldl CommandSchedule.mark_run s).next_due = some w ∧
        v ≤ w) := by
  refine ⟨?_, ?_, ?_⟩
  · rw [CommandSchedule.mark_run]
    rw [← max_add_add_right]
  · intro v hv
    constructor
    · have : v ≤ max now v := le_max_right now v
      linarith
    · rw [CommandSchedule.mark_run, hv]
      simp only [Option.getD_some]
      rw [← max_add_add_right]
  · intro times
    induction times generalizing s with
    | nil =>
      intro v hv
      exact ⟨v, hv, le_rfl⟩
    | cons t ts ih =>
      intro v hv
      have hstep : (s.mark_run t).next_due =
          some (max t v + s.spec.interval) := by
        rw [CommandSchedule.mark_run, hv]
        simp only [Option.getD_some]
        rw [← max_add_add_right]
      have hint' : 0 ≤ (s.mark_run t).spec.interval := by
        rw [mark_run_spec_eq]; exact hint
      obtain ⟨w, hw, hle⟩ := ih (s.mark_run t) hint' _ hstep
      refine ⟨w, by simpa using hw, ?_⟩
      have hv_le : v ≤ max t v + s.spec.interval := by
        have : v ≤ max t v := le_max_right t v
        linarith
      linarith

/-- Witness for `mark_run_monotone` at a schedule of the static table
(`GetPoints`, interval 2) with `next_due = 7`, run at `now = 4`:
the new `next_due` is `9`. -/
theorem mark_run_monotone_witness :
    (CommandSchedule.mark_run
      { spec := { name := "GetPoints", interval := 2, initial_delay := 2 }
        next_due := some 7 } 4).next_due = some (max 4 7 + 2) := by
  have h := mark_run_monotone
    { spec := { name := "GetPoints", interval := 2, initial_delay := 2 }
      next_due := some 7 } 4 (by norm_num)
  exact (h.2.1 7 rfl).2

theorem run_attempt_loop_calls_le (oracle : ℕ → RespOutcome)
    (st : CourtState) (now : ℚ) (spec : String) :
    ∀ (k attempt : ℕ), MAX_RETRY_ATTEMPTS ≤ attempt + k →
      (run_attempt_loop oracle st now spec attempt).calls ≤ k + 1 := by
  intro k
  induction k with
  | zero =>
    intro attempt hk
    have hge : attempt ≥ MAX_RETRY_ATTEMPTS := by omega
    rw [run_attempt_loop]
    cases h : oracle attempt with
    | exception => simp
    | timeout => split_ifs with hcond; · simp
    | http status ra rs dr dres body =>
      by_cases h404 : status = 404
      · simp [h404]
      by_cases h400 : status = 400
      · simp [h404, h400]
      by_cases h4xx : 400 ≤ status ∧ status < 500 ∧ status ≠ 404 ∧
        status ≠ 429
      · simp [h404, h400, h4xx]
      by_cases h429 : status = 429
      · simp [h404, h400, h4xx, h429]
      by_cases h5 : 500 ≤ status
      · have hc : ¬(400 ≤ status ∧ status < 500) := by omega
        simp [h404, h400, h4xx, h429, h5, hc, if_pos hge]
      · have hc : ¬(400 ≤ status ∧ status < 500) := by omega
        rcases body with _ | b <;> simp [h404, h400, h4xx, h429, h5, hc]
  | succ k ih =>
    intro attempt hk
    rw [run_attempt_loop]
    cases h : oracle attempt with
    | exception => simp
    | timeout =>
      by_cases hge : attempt ≥ MAX_RETRY_ATTEMPTS
      · simp [if_pos hge]
      · have hih := ih (attempt + 1) (by omega)
        simp only [if_neg hge]
        omega
    | http status ra rs dr dres body =>
      by_cases h404 : status = 404
      · simp [h404]
      by_cases h400 : status = 400
      · simp [h404, h400]
      by_cases h4xx : 400 ≤ status ∧ status < 500 ∧ status ≠ 404 ∧
        status ≠ 429
      · simp [h404, h400, h4xx]
      by_cases h429 : status = 429
      · simp [h404, h400, h4xx, h429]
      by_cases h5 : 500 ≤ status
      · have hc : ¬(400 ≤ status ∧ status < 500) := by omega
        by_cases hge : attempt ≥ MAX_RETRY_ATTEMPTS
        · simp [h404, h400, h4xx, h429, h5, hc, if_pos hge]
        · have hih := ih (attempt + 1) (by omega)
          simp [h404, h400, h4xx, h429, h5, hc, if_neg hge]
          omega
      · have hc : ¬(400 ≤ status ∧ status < 500) := by omega
        rcases body with _ | b <;> simp [h404, h400, h4xx, h429, h5, hc]

/-- `C5` (counterexample): an HTTP 429 terminates the attempt loop with
a scheduled rate-limit cooldown, which is neither a success, nor a fatal
classification, nor an exhausted-retries error snapshot. -/
theorem retry_bound_counterexample :
    (run_attempt_loop (fun _ => .http 429 none none none none none)
      pausedCourtState 0 "GetPoints" 0).result = .rateLimited ∧
    CmdResult.rateLimited ≠ CmdResult.success ∧
    CmdResult.rateLimited ≠ CmdResult.fatal ∧
    CmdResult.rateLimited ≠ CmdResult.exhausted ∧
    (run_attempt_loop (fun _ => .http 429 none none none none none)
      pausedCourtState 0 "GetPoints" 0).calls = 1 := by
  rw [run_attempt_loop]
  simp [quotaSched]

/-- C5 (amended): one execution of the attempt loop issues at most
`MAX_RETRY_ATTEMPTS + 1` HTTP calls before terminating with a success,
a fatal classification, an exhausted-retries error snapshot, or a
rate-limit (429) cooldown. -/
theorem retry_bound (oracle : ℕ → RespOutcome) (st : CourtState) (now : ℚ)
    (spec : String) :
    (run_attempt_loop oracle st now spec 0).calls ≤ MAX_RETRY_ATTEMPTS + 1 ∧
    ((run_attempt_loop oracle st now spec 0).result = .success ∨
     (run_attempt_loop oracle st now spec 0).result = .fatal ∨
     (run_attempt_loop oracle st now spec 0).result = .exhausted ∨
     (run_attempt_loop oracle st now spec 0).result = .rateLimited) := by
  constructor
  · exact run_attempt_loop_calls_le oracle st now spec MAX_RETRY_ATTEMPTS 0
      (by omega)
  · cases hres : (run_attempt_loop oracle st now spec 0).result <;> simp

theorem throttleRefill_next_allowed (s : ThrottleState) (t : ℚ) :
    (throttleRefill s t).next_allowed_request_by_controlapp =
      s.next_allowed_request_by_controlapp := by
  rw [throttleRefill]
  split_ifs <;> rfl

theorem update_command_error_state_streaks (st : CourtState) (now : ℚ)
    (spec : String) :
    (update_command_error_state st now (some spec)).1.command_error_streak =
      min (st.command_error_streak + 1) 10000 ∧
    alookup (update_command_error_state st now
        (some spec)).1.command_error_streak_by_spec spec =
      some (min ((alookup st.command_error_streak_by_spec spec).getD 0 + 1)
        10000) := by
  rw [update_command_error_state]
  simp only []
  split_ifs
  · rcases hp : st.paused_until with _ | cur <;>
      simp [hp, alookup_setKey_self] <;> split_ifs <;>
      simp [alookup_setKey_self]
  · simp [alookup_setKey_self]

theorem schedule_resume_blocks (ts : ThrottleState) (app : String)
    (d t : ℚ) (ht : t < d) :
    (throttleAttempt (schedule_controlapp_resume ts app d) app t).2 =
      false := by
  have hstore : ∃ c, alookup (schedule_controlapp_resume ts app
      d).next_allowed_request_by_controlapp app = some c ∧ d ≤ c := by
    rw [schedule_controlapp_resume]
    rcases hcur : alookup ts.next_allowed_request_by_controlapp app with
      _ | cur
    · exact ⟨max 0 d, by simp [alookup_setKey_self], le_max_right 0 d⟩
    · simp only []
      split_ifs with hgt
      · exact ⟨max 0 d, by simp [alookup_setKey_self], le_max_right 0 d⟩
      · refine ⟨cur, by simp [hcur], ?_⟩
        have : max 0 d ≤ cur := le_of_not_lt hgt
        have := le_max_right 0 d
        linarith
  obtain ⟨c, hc, hdc⟩ := hstore
  rw [throttleAttempt]
  simp only [throttleRefill_next_allowed, hc]
  rw [if_neg]
  intro hcond
  have hwait := hcond.2.1
  have : (0 : ℚ) < c - t := by linarith
  linarith

/-- C6: an HTTP 429 is not retried inline; it schedules a per-resource
cooldown whose deadline is the maximum of the deadline derived from
`Retry-After` (`now + seconds`) and the one derived from
`X-RateLimit-Reset` (`max now reset`), or `now` plus the default
per-resource spacing when both headers are absent; it increments both
error-streak counters; and no admission for that resource succeeds
before the deadline.  In particular a 429 with `Retry-After: 5` at
`t = 100` yields deadline `105`. -/
theorem rate_limit_429 (oracle : ℕ → RespOutcome) (st : CourtState)
    (now : ℚ) (spec : String) (ra rs : Option ℚ) (body : Option JValue)
    (h0 : oracle 0 = .http 429 ra rs none none body) :
    (run_attempt_loop oracle st now spec 0).calls = 1 ∧
    (run_attempt_loop oracle st now spec 0).result = .rateLimited ∧
    (run_attempt_loop oracle st now spec 0).scheduled =
      [cooldown429 now ra rs] ∧
    (cooldown429 now ra rs =
      match ra, rs with
      | some a, some r => max (now + a) (max now r)
      | some a, none => now + a
      | none, some r => max now r
      | none, none => now + PER_CONTROLAPP_MIN_INTERVAL_SECONDS) ∧
    ((run_attempt_loop oracle st now spec 0).state.command_error_streak =
      min (st.command_error_streak + 1) 10000) ∧
    (alookup (run_attempt_loop oracle st now
        spec 0).state.command_error_streak_by_spec spec =
      some (min ((alookup st.command_error_streak_by_spec spec).getD 0 + 1)
        10000)) ∧
    (∀ (ts : ThrottleState) (app : String) (t : ℚ),
      t < cooldown429 now ra rs →
      (throttleAttempt (schedule_controlapp_resume ts app
        (cooldown429 now ra rs)) app t).2 = false) ∧
    cooldown429 100 (some 5) none = 105 := by
  have hloop : run_attempt_loop oracle st now spec 0 =
      { calls := 1, result := .rateLimited
        scheduled := [cooldown429 now ra rs]
        state := (update_command_error_state st now (some spec)).1 } := by
    rw [run_attempt_loop, h0]
    norm_num [quotaSched]
  rw [hloop]
  refine ⟨rfl, rfl, rfl, ?_, ?_, ?_, ?_, ?_⟩
  · rcases ra with _ | a <;> rcases rs with _ | r <;>
      simp [cooldown429]
  · exact (update_command_error_state_streaks st now spec).1
  · exact (update_command_error_state_streaks st now spec).2
  · intro ts app t ht
    exact schedule_resume_blocks ts app _ t ht
  · norm_num [cooldown429]

/-- Witness for `rate_limit_429`: the concrete 429 with `Retry-After: 5`
at `t = 100`; admission for the resource is refused at `t = 104`. -/
theorem rate_limit_429_witness :
    (throttleAttempt (schedule_controlapp_resume {} "c1"
      (cooldown429 100 (some 5) none)) "c1" 104).2 = false := by
  have h := rate_limit_429
    (fun _ => .http 429 (some 5) none none none none) pausedCourtState
    100 "GetPoints" (some 5) none none rfl
  exact h.2.2.2.2.2.2.1 {} "c1" 104 (by norm_num [cooldown429])

theorem clamp_eq_max (n t : ℚ) : (if t < n then n else t) = max n t := by
  split_ifs with h
  · exact (max_eq_left (le_of_lt h)).symm
  · exact (max_eq_right (le_of_not_lt h)).symm

theorem alookup_map_specs {β : Type} (specs : List CommandSpec)
    (f : CommandSpec → β) (hnd : (specs.map CommandSpec.name).Nodup) :
    ∀ sp ∈ specs, alookup (specs.map (fun s => (s.name, f s))) sp.name =
      some (f sp) := by
  induction specs with
  | nil => intro sp hsp; simp at hsp
  | cons s0 tl ih =>
    intro sp hsp
    simp only [List.map_cons, List.nodup_cons] at hnd
    rcases List.mem_cons.mp hsp with heq | hmem
    · subst heq
      simp [alookup]
    · have hne : s0.name ≠ sp.name := by
        intro hcontra
        exact hnd.1 (hcontra ▸ List.mem_map_of_mem CommandSpec.name hmem)
      simp only [List.map_cons, alookup, if_neg hne]
      exact ih hnd.2 sp hmem

theorem normal_spec_names_nodup (phase : CourtPhase) :
    ((NORMAL_COMMAND_SPECS phase).map CommandSpec.name).Nodup := by
  cases phase <;> simp [NORMAL_COMMAND_SPECS]

/-- `C8` (counterexample): with a per-court `phase_offset` of `2`, the
transition into `PRE_START` at `now = 0` seeds `GetPoints.next_due` to
`4 = now + phase_offset + initial_delay + offset`, not to
`2 = max now (now + initial_delay + offset)` as the claim states. -/
theorem schedule_seed_counterexample :
    (alookup (offsetCourtState.transition .PRE_START 0).command_schedules
      "GetPoints").map (fun s => s.next_due) = some (some 4) ∧
    ¬((4 : ℚ) = max 0 (0 + 2 + 0)) := by
  constructor
  · have hoff : (CourtPollingStage.NORMAL = CourtPollingStage.OFF) = False :=
      by simp
    simp only [offsetCourtState, CourtState.transition,
      CourtState.configure_phase_commands, commandSpecsFor,
      NORMAL_COMMAND_SPECS, CommandSchedule.reset, alookup, hoff, if_false]
    norm_num
  · norm_num

/-- C8 (amended): on every phase transition in the NORMAL stage the
schedule set is rebuilt from the static per-phase `CommandSpec` table,
and each rebuilt schedule's `next_due` is seeded to
`now + phase_offset + initial_delay + offset`, clamped up to `now`. -/
theorem schedule_seed_on_transition (st : CourtState) (phase : CourtPhase)
    (now : ℚ) (hne : phase ≠ st.phase) (hstage : st.stage = .NORMAL) :
    ∀ sp ∈ NORMAL_COMMAND_SPECS phase,
      alookup (st.transition phase now).command_schedules sp.name =
        some { spec := sp
               next_due := some (max now
                 (now + st.phase_offset + sp.initial_delay + sp.offset))
               last_run := none } := by
  intro sp hsp
  rw [CourtState.transition]
  rw [if_neg hne]
  simp only [CourtState.configure_phase_commands, commandSpecsFor, hstage]
  have hstage2 : (CourtPollingStage.NORMAL = CourtPollingStage.OFF) = False :=
    by simp
  have hreset : (fun (s : CommandSpec) =>
      (s.name, CommandSchedule.reset { spec := s }
        (if CourtPollingStage.NORMAL = CourtPollingStage.OFF then now
         else now + st.phase_offset) now)) =
      (fun (s : CommandSpec) =>
        (s.name, ({ spec := s
                    next_due := some (max now
                      (now + st.phase_offset + s.initial_delay + s.offset))
                    last_run := none } : CommandSchedule))) := by
    funext s
    rw [CommandSchedule.reset]
    simp only [hstage2, if_false]
    simp only [clamp_eq_max]
  rw [hreset]
  exact alookup_map_specs (NORMAL_COMMAND_SPECS phase) _
    (normal_spec_names_nodup phase) sp hsp

/-- Witness for `schedule_seed_on_transition` at the
`FINISHED → IDLE_NAMES` transition of a concrete state with
`phase_offset = 2` at `now = 10`. -/
theorem schedule_seed_on_transition_witness :
    (alookup (finishedOffsetCourtState.transition .IDLE_NAMES
        10).command_schedules "GetNamePlayerB").map (fun s => s.next_due) =
      some (some (max 10 (10 + 2 + 0 + 3/2))) := by
  have h := schedule_seed_on_transition finishedOffsetCourtState
    .IDLE_NAMES 10 (by decide) rfl
    { name := "GetNamePlayerB", interval := 3, offset := 3/2,
      initial_delay := 0 }
    (List.mem_cons_of_mem _ (List.mem_cons_self _ _))
  rw [h]
  rfl

/-- `C2` (counterexample): two completed sets won by the same side and a
points-absent streak of 2 satisfy the claimed `Finished` condition, yet
the classifier returns `IdleNames`, because the snapshot status is still
`no-data` and no name has stabilized (the earlier ordered rules fire
first). -/
theorem classify_finished_counterexample :
    classify_phase twoSetsNoNamesSnapshot absentStreakCourtState
      (computeScoreSnapshot twoSetsNoNamesSnapshot) = .IDLE_NAMES ∧
    (computeScoreSnapshot twoSetsNoNamesSnapshot).sets_completed ≥ 1 ∧
    (max (computeScoreSnapshot twoSetsNoNamesSnapshot).sets_won.1
        (computeScoreSnapshot twoSetsNoNamesSnapshot).sets_won.2 ≥ 2 ∨
      (computeScoreSnapshot twoSetsNoNamesSnapshot).sets_completed ≥ 3) ∧
    absentStreakCourtState.points_absent_streak ≥ 2 ∧
    CourtPhase.IDLE_NAMES ≠ CourtPhase.FINISHED := by
  refine ⟨?_, ?_, ?_, ?_, ?_⟩ <;> decide

/-- C2 (amended): the classifier returns `Finished` precisely when none
of the earlier ordered `IdleNames` rules fires, at least one set is
complete with the leader on ≥ 2 sets (or ≥ 3 sets completed), and the
points-absent streak is ≥ 2; in particular it never returns `Finished`
through a later rule when that condition fails. -/
theorem classify_finished_iff (snapshot : Entry) (st : CourtState)
    (score : ScoreSnapshot) :
    classify_phase snapshot st score = .FINISHED ↔
      (¬(snapshot.status ≠ SNAPSHOT_STATUS_OK ∧
          !has_any_name_of snapshot st) ∧
       ¬(snapshot.status ≠ SNAPSHOT_STATUS_OK ∧
          st.name_stability < NAME_STABILIZATION_TICKS) ∧
       ¬(snapshot.status = SNAPSHOT_STATUS_OK ∧
          !has_any_name_of snapshot st) ∧
       ¬(st.phase = .IDLE_NAMES ∧ NAME_STABILIZATION_TICKS > 0 ∧
          st.name_stability < NAME_STABILIZATION_TICKS) ∧
       ¬(st.name_stability < NAME_STABILIZATION_TICKS ∧ !score.points_any ∧
          !score.games_any ∧ !score.sets_present) ∧
       (score.sets_completed ≥ 1 ∧
         (max score.sets_won.1 score.sets_won.2 ≥ 2 ∨
           score.sets_completed ≥ 3)) ∧
       st.points_absent_streak ≥ 2) := by
  by_cases g1 : (snapshot.status ≠ SNAPSHOT_STATUS_OK ∧
      !has_any_name_of snapshot st)
  · rw [classify_phase, if_pos g1]
    exact iff_of_false (by decide) (fun hR => hR.1 g1)
  by_cases g2 : (snapshot.status ≠ SNAPSHOT_STATUS_OK ∧
      st.name_stability < NAME_STABILIZATION_TICKS)
  · rw [classify_phase, if_neg g1, if_pos g2]
    exact iff_of_false (by decide) (fun hR => hR.2.1 g2)
  by_cases g3 : (snapshot.status = SNAPSHOT_STATUS_OK ∧
      !has_any_name_of snapshot st)
  · rw [classify_phase, if_neg g1, if_neg g2, if_pos g3]
    exact iff_of_false (by decide) (fun hR => hR.2.2.1 g3)
  by_cases g4 : (st.phase = .IDLE_NAMES ∧ NAME_STABILIZATION_TICKS > 0 ∧
      st.name_stability < NAME_STABILIZATION_TICKS)
  · rw [classify_phase, if_neg g1, if_neg g2, if_neg g3, if_pos g4]
    exact iff_of_false (by decide) (fun hR => hR.2.2.2.1 g4)
  by_cases g5 : (st.name_stability < NAME_STABILIZATION_TICKS ∧
      !score.points_any ∧ !score.games_any ∧ !score.sets_present)
  · rw [classify_phase, if_neg g1, if_neg g2, if_neg g3, if_neg g4,
      if_pos g5]
    exact iff_of_false (by decide) (fun hR => hR.2.2.2.2.1 g5)
  by_cases g6 : ((score.sets_completed ≥ 1 ∧
      (max score.sets_won.1 score.sets_won.2 ≥ 2 ∨
        score.sets_completed ≥ 3)) ∧ st.points_absent_streak ≥ 2)
  · rw [classify_phase, if_neg g1, if_neg g2, if_neg g3, if_neg g4,
      if_neg g5, if_pos g6]
    exact iff_of_true rfl ⟨g1, g2, g3, g4, g5, g6.1, g6.2⟩
  · rw [classify_phase, if_neg g1, if_neg g2, if_neg g3, if_neg g4,
      if_neg g5, if_neg g6]
    split_ifs <;>
      exact iff_of_false (by decide)
        (fun hR => g6 ⟨hR.2.2.2.2.2.1, hR.2.2.2.2.2.2⟩)

theorem preClassify_phase (st : CourtState) (snap : Entry) (now : ℚ) :
    (preClassifyState st snap now).phase = st.phase := by
  rw [preClassifyState]
  simp only [CourtState.mark_polled, CourtState.update_name_stability,
    CourtState.update_score_stability]
  split_ifs <;> rfl

theorem preClassify_fname (st : CourtState) (snap : Entry) (now : ℚ) :
    (preClassifyState st snap now).finished_name_signature =
      st.finished_name_signature := by
  rw [preClassifyState]
  simp only [CourtState.mark_polled, CourtState.update_name_stability,
    CourtState.update_score_stability]
  split_ifs <;> rfl

theorem preClassify_fraw (st : CourtState) (snap : Entry) (now : ℚ) :
    (preClassifyState st snap now).finished_raw_signature =
      st.finished_raw_signature := by
  rw [preClassifyState]
  simp only [CourtState.mark_polled, CourtState.update_name_stability,
    CourtState.update_score_stability]
  split_ifs <;> rfl

theorem transition_idle_from_finished (st : CourtState) (now : ℚ)
    (h : st.phase = .FINISHED) :
    (st.transition .IDLE_NAMES now).phase = .IDLE_NAMES ∧
    (st.transition .IDLE_NAMES now).finished_name_signature = none ∧
    (st.transition .IDLE_NAMES now).finished_raw_signature = none := by
  rw [CourtState.transition]
  rw [if_neg (by rw [h]; decide)]
  simp [CourtState.configure_phase_commands]

/-- C3: while in `Finished` and re-classified as `Finished`, a non-empty
stored finished-name (resp. finished-raw) signature differing from the
currently computed one forces an immediate transition to `IdleNames`,
clearing the `Finished` phase-entry bookkeeping. -/
theorem finished_reentry_reset (st : CourtState) (snap : Entry) (now : ℚ)
    (hph : st.phase = .FINISHED)
    (hdes : classify_phase snap (preClassifyState st snap now)
      (computeScoreSnapshot snap) = .FINISHED)
    (hsig : (sigTruthy st.finished_name_signature = true ∧
        some (st.compute_name_signature snap) ≠
          st.finished_name_signature) ∨
      (sigTruthy st.finished_raw_signature = true ∧
        some (st.compute_raw_signature snap) ≠ st.finished_raw_signature)) :
    (process_snapshot st snap now).phase = .IDLE_NAMES ∧
    (process_snapshot st snap now).finished_name_signature = none ∧
    (process_snapshot st snap now).finished_raw_signature = none := by
  have hp4 : (preClassifyState st snap now).phase = .FINISHED :=
    (preClassify_phase st snap now).trans hph
  rw [process_snapshot]
  simp only [preClassify_phase, preClassify_fname, preClassify_fraw]
  by_cases h1 : (st.phase = CourtPhase.FINISHED ∧
      classify_phase snap (preClassifyState st snap now)
        (computeScoreSnapshot snap) = CourtPhase.FINISHED ∧
      sigTruthy st.finished_name_signature = true ∧
      some (st.compute_name_signature snap) ≠ st.finished_name_signature)
  · rw [if_pos h1]
    exact transition_idle_from_finished _ now hp4
  rw [if_neg h1]
  by_cases h2 : (st.phase = CourtPhase.FINISHED ∧
      classify_phase snap (preClassifyState st snap now)
        (computeScoreSnapshot snap) = CourtPhase.FINISHED ∧
      sigTruthy st.finished_raw_signature = true ∧
      some ((preClassifyState st snap now).compute_raw_signature snap) ≠
        st.finished_raw_signature)
  · rw [if_pos h2]
    exact transition_idle_from_finished _ now hp4
  rw [if_neg h2]
  exfalso
  rcases hsig with ⟨ht, hne⟩ | ⟨ht, hne⟩
  · exact h1 ⟨hph, hdes, ht, hne⟩
  · exact h2 ⟨hph, hdes, ht, hne⟩

/-- A court already in `FINISHED` whose frozen name signature differs from
the incoming snapshot's names. -/
def c3St : CourtState where
  kort_id := "1"
  phase := .FINISHED
  finished_name_signature := some "Ann|Bea"
  last_name_signature := some "Cid|Dee"
  name_stability := 5
  points_absent_streak := 1

/-- A healthy snapshot for a new completed match (names Cid/Dee, sets 6-4
6-4, no points). -/
def c3Snap : Entry where
  kort_id := "1"
  status := "ok"
  last_updated := none
  players := [("A", [("name", .str "Cid")]), ("B", [("name", .str "Dee")])]
  raw := [("Set1PlayerA", .num 6), ("Set1PlayerB", .num 4),
    ("Set2PlayerA", .num 6), ("Set2PlayerB", .num 4)]
  serving := none
  error := none
  available := true
  archive := []
  badges := []
  pause_active := false
  pause_minutes := 0
  pause_until := none

/-- C3 witness: the concrete finished court re-entering with fresh names is
reset to `IDLE_NAMES` with both signatures cleared. -/
theorem finished_reentry_reset_witness :
    (process_snapshot c3St c3Snap 0).phase = .IDLE_NAMES ∧
    (process_snapshot c3St c3Snap 0).finished_name_signature = none ∧
    (process_snapshot c3St c3Snap 0).finished_raw_signature = none :=
  finished_reentry_reset c3St c3Snap 0 (by decide) (by decide)
    (Or.inl ⟨by decide, by decide⟩)

/-! Association-list lemmas used by the merge-idempotence development. -/

theorem alookup_append_of_none {α : Type} (m1 m2 : List (String × α))
    (k : String) (h : alookup m1 k = none) :
    alookup (m1 ++ m2) k = alookup m2 k := by
  induction m1 with
  | nil => simp
  | cons hd tl ih =>
    obtain ⟨j, w⟩ := hd
    by_cases hj : j = k
    · simp [alookup, hj] at h
    · simp only [alookup, if_neg hj] at h
      simpa [alookup, hj] using ih h

theorem alookup_none_iff_notMem {α : Type} (m : List (String × α))
    (k : String) : alookup m k = none ↔ k ∉ keysOf m := by
  induction m with
  | nil => simp [alookup, keysOf]
  | cons hd tl ih =>
    obtain ⟨j, w⟩ := hd
    by_cases hj : j = k
    · simp [alookup, keysOf, hj]
    · simp [alookup, keysOf, hj, ih, Ne.symm hj]

theorem setKey_notMem {α : Type} (m : List (String × α)) (k : String)
    (v : α) (h : alookup m k = none) : setKey m k v = m ++ [(k, v)] := by
  induction m with
  | nil => simp [setKey]
  | cons hd tl ih =>
    obtain ⟨j, w⟩ := hd
    by_cases hj : j = k
    · simp [alookup, hj] at h
    · simp only [alookup, if_neg hj] at h
      simp [setKey, hj, ih h]

theorem keysOf_append {α : Type} (m1 m2 : List (String × α)) :
    keysOf (m1 ++ m2) = keysOf m1 ++ keysOf m2 := by
  simp [keysOf]

theorem keysOf_setKey_of_some {α : Type} (m : List (String × α))
    (k : String) (v w : α) (h : alookup m k = some w) :
    keysOf (setKey m k v) = keysOf m := by
  induction m with
  | nil => simp [alookup] at h
  | cons hd tl ih =>
    obtain ⟨j, u⟩ := hd
    by_cases hj : j = k
    · simp [setKey, keysOf, hj]
    · simp only [alookup, if_neg hj] at h
      simp only [setKey, if_neg hj, keysOf, List.map_cons]
      exact congrArg (List.cons j) (ih h)

theorem nodup_keys_setKey {α : Type} (m : List (String × α)) (k : String)
    (v : α) (h : (keysOf m).Nodup) : (keysOf (setKey m k v)).Nodup := by
  cases hl : alookup m k with
  | none =>
    rw [setKey_notMem m k v hl, keysOf_append]
    have hk : k ∉ keysOf m := (alookup_none_iff_notMem m k).1 hl
    have hd : (keysOf m).Disjoint [k] := by
      intro x hx hxk
      simp at hxk
      subst hxk
      exact hk hx
    exact List.Nodup.append h (List.nodup_singleton k) hd
  | some w => rw [keysOf_setKey_of_some m k v w hl]; exact h

theorem nodup_keys_setDefaultKey {α : Type} (m : List (String × α))
    (k : String) (v : α) (h : (keysOf m).Nodup) :
    (keysOf (setDefaultKey m k v)).Nodup := by
  unfold setDefaultKey
  by_cases hk : hasKey m k = true
  · rw [if_pos hk]; exact h
  · rw [if_neg hk, keysOf_append]
    have : alookup m k = none := by
      cases hl : alookup m k with
      | none => rfl
      | some w => exact absurd (by simp [hasKey, hl]) hk
    have hkm : k ∉ keysOf m := (alookup_none_iff_notMem m k).1 this
    have hd : (keysOf m).Disjoint [k] := by
      intro x hx hxk
      simp at hxk
      subst hxk
      exact hkm hx
    exact List.Nodup.append h (List.nodup_singleton k) hd

theorem foldl_preserve {α β : Type} (P : α → Prop) (f : α → β → α)
    (hf : ∀ a b, P a → P (f a b)) :
    ∀ (l : List β) (a : α), P a → P (l.foldl f a) := by
  intro l
  induction l with
  | nil => intro a ha; exact ha
  | cons hd tl ih => intro a ha; exact ih (f a hd) (hf a hd ha)

theorem updList_cons {α : Type} (m : List (String × α)) (k : String)
    (v : α) (tl : List (String × α)) :
    updList m ((k, v) :: tl) = updList (setKey m k v) tl := rfl

theorem alookup_updList_mem {α : Type} (l : List (String × α))
    (hnd : (keysOf l).Nodup) (k : String) (v : α) (hmem : (k, v) ∈ l) :
    ∀ m, alookup (updList m l) k = some v := by
  induction l with
  | nil => cases hmem
  | cons hd tl ih =>
    intro m
    obtain ⟨j, w⟩ := hd
    rw [keysOf_cons, List.nodup_cons] at hnd
    rcases List.mem_cons.1 hmem with heq | hmem'
    · obtain ⟨hk, hv⟩ := Prod.mk.injEq .. ▸ heq
      injection heq with h1 h2
      subst h1; subst h2
      rw [updList_cons]
      rw [alookup_updList_notMem _ _ _ hnd.1, alookup_setKey_self]
    · rw [updList_cons]
      exact ih hnd.2 hmem' (setKey m j w)

theorem updList_self_of_lookup {α : Type} (l : List (String × α)) :
    ∀ m, (∀ kv ∈ l, alookup m kv.1 = some kv.2) → updList m l = m := by
  induction l with
  | nil => intro m _; rfl
  | cons hd tl ih =>
    intro m h
    obtain ⟨k, v⟩ := hd
    rw [updList_cons, setKey_self_of_lookup m k v (h (k, v) (by simp))]
    exact ih m (fun kv hkv => h kv (List.mem_cons_of_mem _ hkv))

theorem updList_idem {α : Type} (l : List (String × α))
    (hnd : (keysOf l).Nodup) (m : List (String × α)) :
    updList (updList m l) l = updList m l :=
  updList_self_of_lookup l (updList m l)
    (fun kv hkv => alookup_updList_mem l hnd kv.1 kv.2 (by simpa using hkv) m)

theorem updList_append_of_fresh {α : Type} (l : List (String × α))
    (hnd : (keysOf l).Nodup) :
    ∀ m, (∀ k ∈ keysOf l, alookup m k = none) → updList m l = m ++ l := by
  induction l with
  | nil => intro m _; simp [updList]
  | cons hd tl ih =>
    intro m h
    obtain ⟨k, v⟩ := hd
    rw [keysOf_cons, List.nodup_cons] at hnd
    rw [updList_cons, setKey_notMem m k v (h k (by simp [keysOf]))]
    rw [ih hnd.2 (m ++ [(k, v)]) ?fresh]
    · simp
    case fresh =>
      intro j hj
      have hjk : j ≠ k := fun hjk => hnd.1 (hjk ▸ hj)
      rw [alookup_append_of_none _ _ _
        (h j (by rw [keysOf_cons]; exact List.mem_cons_of_mem _ hj))]
      simp [alookup, Ne.symm hjk]

theorem updList_nil_eq {α : Type} (l : List (String × α))
    (hnd : (keysOf l).Nodup) : updList [] l = l := by
  simpa using updList_append_of_fresh l hnd [] (fun k _ => rfl)

theorem updList_self_idem {α : Type} (l : List (String × α))
    (hnd : (keysOf l).Nodup) : updList l l = l := by
  have h0 := updList_idem l hnd []
  rwa [updList_nil_eq l hnd] at h0

theorem mergeResolve_idem (k : String) (v : JValue)
    (hv : (k == "PlayerA" || k == "PlayerB") = true →
      ∀ vfs, v = JValue.obj vfs → (keysOf vfs).Nodup) :
    ∀ x, mergeResolve k (some (mergeResolve k x v)) v = mergeResolve k x v := by
  intro x
  cases v with
  | obj vfs =>
    by_cases hk : (k == "PlayerA" || k == "PlayerB") = true
    · have hnd := hv hk vfs rfl
      cases x with
      | none => simp [mergeResolve, hk, updList_self_idem vfs hnd]
      | some w =>
        cases w with
        | obj ex => simp [mergeResolve, hk, updList_idem vfs hnd ex]
        | null => simp [mergeResolve, hk, updList_self_idem vfs hnd]
        | bool b => simp [mergeResolve, hk, updList_self_idem vfs hnd]
        | num n => simp [mergeResolve, hk, updList_self_idem vfs hnd]
        | str s => simp [mergeResolve, hk, updList_self_idem vfs hnd]
        | arr l => simp [mergeResolve, hk, updList_self_idem vfs hnd]
    · simp [mergeResolve, hk]
  | null => rfl
  | bool b => rfl
  | num n => rfl
  | str s => rfl
  | arr l => rfl

theorem mergeRawMap_idem (raw p : RawMap) (hWF : WFpartial p = true) :
    mergeRawMap (mergeRawMap raw p) p = mergeRawMap raw p := by
  unfold WFpartial at hWF
  rw [Bool.and_eq_true] at hWF
  have hnd : (keysOf p).Nodup := of_decide_eq_true hWF.1
  have hobj := List.all_eq_true.1 hWF.2
  exact updWith_idem mergeResolve p hnd
    (fun kv hkv x => by
      refine mergeResolve_idem kv.1 kv.2 (fun hk vfs hveq => ?_) x
      have := hobj kv hkv
      rw [if_pos hk, hveq] at this
      exact of_decide_eq_true this) raw

theorem setDefaultKey_of_mem {α : Type} (m : List (String × α)) (k : String)
    (v : α) (h : hasKey m k = true) : setDefaultKey m k v = m := by
  unfold setDefaultKey
  rw [if_pos h]

theorem alookup_setDefaultKey_self {α : Type} (m : List (String × α))
    (k : String) (v : α) :
    alookup (setDefaultKey m k v) k = some ((alookup m k).getD v) := by
  unfold setDefaultKey
  by_cases h : hasKey m k = true
  · rw [if_pos h]
    cases hl : alookup m k with
    | none => simp [hasKey, hl] at h
    | some w => simp [hl]
  · rw [if_neg h]
    have hl : alookup m k = none := by
      cases hl : alookup m k with
      | none => rfl
      | some w => exact absurd (by simp [hasKey, hl]) h
    rw [alookup_append_of_none _ _ _ hl, hl]
    simp [alookup]

theorem alookup_append_of_some {α : Type} (m1 m2 : List (String × α))
    (j : String) (w : α) (h : alookup m1 j = some w) :
    alookup (m1 ++ m2) j = some w := by
  induction m1 with
  | nil => simp [alookup] at h
  | cons hd tl ih =>
    obtain ⟨i, u⟩ := hd
    by_cases hij : i = j
    · simp [alookup, hij] at h ⊢
      exact h
    · simp only [alookup, if_neg hij] at h
      simpa [alookup, hij] using ih h

theorem alookup_setDefaultKey_ne {α : Type} (m : List (String × α))
    (k j : String) (v : α) (hne : j ≠ k) :
    alookup (setDefaultKey m k v) j = alookup m j := by
  unfold setDefaultKey
  by_cases h : hasKey m k = true
  · rw [if_pos h]
  · rw [if_neg h]
    cases hl : alookup m j with
    | none =>
      rw [alookup_append_of_none _ _ _ hl]
      simp [alookup, Ne.symm hne]
    | some w => exact alookup_append_of_some _ _ _ _ hl

theorem nodup_keys_foldl_setKey_branch {α : Type}
    (f : List (String × α) → String × α → List (String × α))
    (hf : ∀ m kv, f m kv = m ∨ ∃ k v, f m kv = setKey m k v ∨
      f m kv = setDefaultKey m k v) :
    ∀ (l : List (String × α)) (a : List (String × α)),
      (keysOf a).Nodup → (keysOf (l.foldl f a)).Nodup :=
  foldl_preserve (fun m => (keysOf m).Nodup) f (by
    intro a b ha
    rcases hf a b with heq | ⟨k, v, heq | heq⟩
    · rw [heq]; exact ha
    · rw [heq]; exact nodup_keys_setKey a k v ha
    · rw [heq]; exact nodup_keys_setDefaultKey a k v ha)

theorem extract_player_sets_nodup (data : RawMap) (suffix : String) :
    (keysOf (extract_player data suffix).sets).Nodup := by
  simp only [extract_player]
  cases hj : jGetD data ("Player" ++ suffix) with
  | obj nfs =>
    simp only []
    refine nodup_keys_foldl_setKey_branch _ ?f2 data _
      (nodup_keys_foldl_setKey_branch _ ?f1 nfs [] (by simp [keysOf]))
    case f1 =>
      intro m kv
      by_cases h1 : strStarts kv.1 "Set" = true
      · exact Or.inr ⟨kv.1 ++ "Player" ++ suffix, kv.2, Or.inl (by simp [h1])⟩
      · by_cases h2 : (kv.1 == "CurrentSet") = true
        · exact Or.inr ⟨"CurrentSetPlayer" ++ suffix, kv.2,
            Or.inl (by simp [h1, h2])⟩
        · by_cases h3 : (kv.1 == "TieBreak") = true
          · exact Or.inr ⟨"TieBreakPlayer" ++ suffix, kv.2,
              Or.inl (by simp [h1, h2, h3])⟩
          · exact Or.inl (by simp [h1, h2, h3])
    case f2 =>
      intro m kv
      by_cases h1 : (strStarts kv.1 "Set" && strEnds kv.1
          ("Player" ++ suffix)) = true
      · exact Or.inr ⟨kv.1, kv.2, Or.inr (by simp [h1])⟩
      · exact Or.inl (by simp [h1])
  | null =>
    simp only []
    refine nodup_keys_foldl_setKey_branch _ ?f2n data [] (by simp [keysOf])
    case f2n =>
      intro m kv
      by_cases h1 : (strStarts kv.1 "Set" && strEnds kv.1
          ("Player" ++ suffix)) = true
      · exact Or.inr ⟨kv.1, kv.2, Or.inr (by simp [h1])⟩
      · exact Or.inl (by simp [h1])
  | bool b =>
    simp only []
    refine nodup_keys_foldl_setKey_branch _ ?f2b data [] (by simp [keysOf])
    case f2b =>
      intro m kv
      by_cases h1 : (strStarts kv.1 "Set" && strEnds kv.1
          ("Player" ++ suffix)) = true
      · exact Or.inr ⟨kv.1, kv.2, Or.inr (by simp [h1])⟩
      · exact Or.inl (by simp [h1])
  | num n =>
    simp only []
    refine nodup_keys_foldl_setKey_branch _ ?f2m data [] (by simp [keysOf])
    case f2m =>
      intro m kv
      by_cases h1 : (strStarts kv.1 "Set" && strEnds kv.1
          ("Player" ++ suffix)) = true
      · exact Or.inr ⟨kv.1, kv.2, Or.inr (by simp [h1])⟩
      · exact Or.inl (by simp [h1])
  | str s =>
    simp only []
    refine nodup_keys_foldl_setKey_branch _ ?f2s data [] (by simp [keysOf])
    case f2s =>
      intro m kv
      by_cases h1 : (strStarts kv.1 "Set" && strEnds kv.1
          ("Player" ++ suffix)) = true
      · exact Or.inr ⟨kv.1, kv.2, Or.inr (by simp [h1])⟩
      · exact Or.inl (by simp [h1])
  | arr l =>
    simp only []
    refine nodup_keys_foldl_setKey_branch _ ?f2a data [] (by simp [keysOf])
    case f2a =>
      intro m kv
      by_cases h1 : (strStarts kv.1 "Set" && strEnds kv.1
          ("Player" ++ suffix)) = true
      · exact Or.inr ⟨kv.1, kv.2, Or.inr (by simp [h1])⟩
      · exact Or.inl (by simp [h1])

/-- The per-suffix body of the first merging loop of
`_merge_partial_payload` (one iteration of `mergePlayersInfo`). -/
def mergeInfoStep (parsed : List (String × ParsedPlayer)) (sfx : String)
    (players : List (String × RawMap)) : List (String × RawMap) :=
  let info := (alookup parsed sfx).getD ⟨.null, .null, []⟩
  if has_player_info info then
    let m1 := setDefaultKey players sfx []
    let pe := (alookup m1 sfx).getD []
    setKey m1 sfx (applyPlayerInfo pe info)
  else players

/-- The per-player entry written by the second loop of
`_merge_partial_payload`. -/
def svEntry (serving : Option String) (sfx : String) (pe : RawMap) :
    RawMap :=
  setKey (setDefaultKey pe "sets" (.obj []))
    "is_serving" (.bool (serving == some sfx))

/-- The per-suffix body of the second loop of `_merge_partial_payload`
(one iteration of `applyServing`). -/
def servingStep (serving : Option String) (sfx : String)
    (players : List (String × RawMap)) : List (String × RawMap) :=
  match alookup players sfx with
  | none => players
  | some pe => setKey players sfx (svEntry serving sfx pe)

theorem mergePlayersInfo_cons (players : List (String × RawMap))
    (parsed : List (String × ParsedPlayer)) (sfx : String)
    (rest : List String) :
    mergePlayersInfo players parsed (sfx :: rest) =
      mergePlayersInfo (mergeInfoStep parsed sfx players) parsed rest := rfl

theorem applyServing_cons (players : List (String × RawMap))
    (serving : Option String) (sfx : String) (rest : List String) :
    applyServing players serving (sfx :: rest) =
      applyServing (servingStep serving sfx players) serving rest := rfl

theorem mergedPlayersOf_eq_steps (players : List (String × RawMap))
    (raw : RawMap) :
    mergedPlayersOf players raw =
      servingStep (parse_overlay_json raw).serving "B"
        (servingStep (parse_overlay_json raw).serving "A"
          (mergeInfoStep (parse_overlay_json raw).players "B"
            (mergeInfoStep (parse_overlay_json raw).players "A"
              players))) := rfl

theorem alookup_mergeInfoStep_ne (parsed : List (String × ParsedPlayer))
    (sfx k : String) (players : List (String × RawMap)) (hne : k ≠ sfx) :
    alookup (mergeInfoStep parsed sfx players) k = alookup players k := by
  unfold mergeInfoStep
  by_cases h : has_player_info ((alookup parsed sfx).getD ⟨.null, .null, []⟩)
    = true
  · rw [if_pos h, alookup_setKey_ne _ _ _ _ (Ne.symm hne),
      alookup_setDefaultKey_ne _ _ _ _ hne]
  · rw [if_neg h]

theorem alookup_mergeInfoStep_self (parsed : List (String × ParsedPlayer))
    (sfx : String) (players : List (String × RawMap))
    (h : has_player_info ((alookup parsed sfx).getD ⟨.null, .null, []⟩)
      = true) :
    alookup (mergeInfoStep parsed sfx players) sfx =
      some (applyPlayerInfo ((alookup players sfx).getD [])
        ((alookup parsed sfx).getD ⟨.null, .null, []⟩)) := by
  unfold mergeInfoStep
  rw [if_pos h, alookup_setKey_self, alookup_setDefaultKey_self]
  simp

theorem mergeInfoStep_noinfo (parsed : List (String × ParsedPlayer))
    (sfx : String) (players : List (String × RawMap))
    (h : has_player_info ((alookup parsed sfx).getD ⟨.null, .null, []⟩)
      = false) :
    mergeInfoStep parsed sfx players = players := by
  unfold mergeInfoStep
  rw [if_neg (by simp [h])]

theorem alookup_servingStep_ne (serving : Option String) (sfx k : String)
    (players : List (String × RawMap)) (hne : k ≠ sfx) :
    alookup (servingStep serving sfx players) k = alookup players k := by
  unfold servingStep
  cases hl : alookup players sfx with
  | none => rfl
  | some pe => rw [alookup_setKey_ne _ _ _ _ (Ne.symm hne)]

theorem alookup_servingStep_self (serving : Option String) (sfx : String)
    (players : List (String × RawMap)) :
    alookup (servingStep serving sfx players) sfx =
      (alookup players sfx).map (svEntry serving sfx) := by
  unfold servingStep
  cases hl : alookup players sfx with
  | none => rw [hl]; rfl
  | some pe => rw [alookup_setKey_self]; rfl

theorem alookup_svEntry_ne (serving : Option String) (sfx j : String)
    (pe : RawMap) (h1 : j ≠ "is_serving") (h2 : j ≠ "sets") :
    alookup (svEntry serving sfx pe) j = alookup pe j := by
  unfold svEntry
  rw [alookup_setKey_ne _ _ _ _ (Ne.symm h1),
    alookup_setDefaultKey_ne _ _ _ _ h2]

theorem alookup_svEntry_serving (serving : Option String) (sfx : String)
    (pe : RawMap) :
    alookup (svEntry serving sfx pe) "is_serving" =
      some (.bool (serving == some sfx)) := by
  unfold svEntry
  rw [alookup_setKey_self]

theorem alookup_svEntry_sets (serving : Option String) (sfx : String)
    (pe : RawMap) :
    alookup (svEntry serving sfx pe) "sets" =
      some ((alookup pe "sets").getD (.obj [])) := by
  unfold svEntry
  rw [alookup_setKey_ne _ _ _ _ (by decide), alookup_setDefaultKey_self]

theorem svEntry_stable (serving : Option String) (sfx : String)
    (pe : RawMap)
    (hsv : alookup pe "is_serving" = some (.bool (serving == some sfx)))
    (hsets : (alookup pe "sets").isSome = true) :
    svEntry serving sfx pe = pe := by
  unfold svEntry
  rw [setDefaultKey_of_mem _ _ _ (by simp [hasKey, hsets]),
    setKey_self_of_lookup _ _ _ hsv]

theorem svEntry_idem (serving : Option String) (sfx : String) (pe : RawMap) :
    svEntry serving sfx (svEntry serving sfx pe) = svEntry serving sfx pe :=
  svEntry_stable serving sfx _ (alookup_svEntry_serving serving sfx pe)
    (by rw [alookup_svEntry_sets]; rfl)

theorem servingStep_stable (serving : Option String) (sfx : String)
    (players : List (String × RawMap))
    (h : ∀ pe, alookup players sfx = some pe → svEntry serving sfx pe = pe) :
    servingStep serving sfx players = players := by
  unfold servingStep
  cases hl : alookup players sfx with
  | none => rfl
  | some pe =>
    show setKey players sfx (svEntry serving sfx pe) = players
    rw [h pe hl, setKey_self_of_lookup _ _ _ hl]

theorem mergeInfoStep_stable (parsed : List (String × ParsedPlayer))
    (sfx : String) (players : List (String × RawMap)) (pe : RawMap)
    (hl : alookup players sfx = some pe)
    (hst : applyPlayerInfo pe
      ((alookup parsed sfx).getD ⟨.null, .null, []⟩) = pe) :
    mergeInfoStep parsed sfx players = players := by
  simp only [mergeInfoStep]
  by_cases h : has_player_info ((alookup parsed sfx).getD ⟨.null, .null, []⟩)
    = true
  · rw [if_pos h, setDefaultKey_of_mem _ _ _ (by simp [hasKey, hl]), hl]
    simp only [Option.getD_some]
    rw [hst, setKey_self_of_lookup _ _ _ hl]
  · rw [if_neg h]

theorem alookup_applyPlayerInfo_name (pe : RawMap) (info : ParsedPlayer)
    (h : jIsNull info.name = false) :
    alookup (applyPlayerInfo pe info) "name" = some info.name := by
  cases hs : info.sets.isEmpty <;> cases hp : jIsNull info.points <;>
    simp [applyPlayerInfo, h, hs, hp, alookup_setKey_ne,
      alookup_setDefaultKey_ne, alookup_setKey_self]

theorem alookup_applyPlayerInfo_points (pe : RawMap) (info : ParsedPlayer)
    (h : jIsNull info.points = false) :
    alookup (applyPlayerInfo pe info) "points" = some info.points := by
  cases hs : info.sets.isEmpty <;> cases hn : jIsNull info.name <;>
    simp [applyPlayerInfo, h, hs, hn, alookup_setKey_ne,
      alookup_setDefaultKey_ne, alookup_setKey_self]

theorem alookup_applyPlayerInfo_sets_nonempty (pe : RawMap)
    (info : ParsedPlayer) (h : info.sets.isEmpty = false) :
    ∃ ex, alookup (applyPlayerInfo pe info) "sets" =
      some (.obj (updList ex info.sets)) := by
  simp only [applyPlayerInfo, h, Bool.not_false, if_pos]
  exact ⟨_, alookup_setKey_self _ _ _⟩

theorem applyPlayerInfo_stable (pe : RawMap) (info : ParsedPlayer)
    (hname : jIsNull info.name = false → alookup pe "name" = some info.name)
    (hpts : jIsNull info.points = false →
      alookup pe "points" = some info.points)
    (hsets : info.sets.isEmpty = false → ∃ S,
      alookup pe "sets" = some (.obj S) ∧ updList S info.sets = S)
    (hsets0 : info.sets.isEmpty = true →
      (alookup pe "sets").isSome = true) :
    applyPlayerInfo pe info = pe := by
  simp only [applyPlayerInfo]
  have h1 : (if !jIsNull info.name then setKey pe "name" info.name else pe)
      = pe := by
    cases hn : jIsNull info.name
    · simpa using setKey_self_of_lookup _ _ _ (hname hn)
    · simp
  rw [h1]
  have h2 : (if !jIsNull info.points then setKey pe "points" info.points
      else pe) = pe := by
    cases hp : jIsNull info.points
    · simpa using setKey_self_of_lookup _ _ _ (hpts hp)
    · simp
  rw [h2]
  cases hs : info.sets.isEmpty with
  | true =>
    simp only [hs, Bool.not_true, if_neg, Bool.false_eq_true,
      not_false_iff]
    exact setDefaultKey_of_mem _ _ _ (by simp [hasKey, hsets0 hs])
  | false =>
    obtain ⟨S, hS, hSidem⟩ := hsets hs
    simp only [hs, Bool.not_false, if_pos]
    have hj : jGetD pe "sets" = .obj S := by simp [jGetD, hS]
    rw [hj]
    simp only []
    rw [hSidem, setKey_self_of_lookup _ _ _ hS]

theorem mergeInfoStep_stable_of (parsed : List (String × ParsedPlayer))
    (s : Option String) (sfx : String) (P2 : List (String × RawMap))
    (hnd : (keysOf ((alookup parsed sfx).getD ⟨.null, .null, []⟩).sets).Nodup)
    (h2 : has_player_info ((alookup parsed sfx).getD ⟨.null, .null, []⟩)
        = true →
      ∃ q, alookup P2 sfx = some (svEntry s sfx (applyPlayerInfo q
        ((alookup parsed sfx).getD ⟨.null, .null, []⟩)))) :
    mergeInfoStep parsed sfx P2 = P2 := by
  by_cases hi : has_player_info ((alookup parsed sfx).getD ⟨.null, .null, []⟩)
      = true
  · obtain ⟨q, hq⟩ := h2 hi
    refine mergeInfoStep_stable parsed sfx P2 _ hq ?_
    refine applyPlayerInfo_stable _ _ ?_ ?_ ?_ ?_
    · intro hn
      rw [alookup_svEntry_ne _ _ _ _ (by decide) (by decide)]
      exact alookup_applyPlayerInfo_name _ _ hn
    · intro hp
      rw [alookup_svEntry_ne _ _ _ _ (by decide) (by decide)]
      exact alookup_applyPlayerInfo_points _ _ hp
    · intro hs
      rw [alookup_svEntry_sets]
      obtain ⟨ex, hex⟩ := alookup_applyPlayerInfo_sets_nonempty q _ hs
      rw [hex]
      exact ⟨updList ex _, rfl, updList_idem _ hnd ex⟩
    · intro _
      rw [alookup_svEntry_sets]
      rfl
  · exact mergeInfoStep_noinfo parsed sfx P2
      (Bool.not_eq_true _ ▸ Bool.of_not_eq_true hi)

theorem servingStep_stable_of (s : Option String) (sfx : String)
    (P2 : List (String × RawMap))
    (h1 : ∀ pe, alookup P2 sfx = some pe → ∃ q, pe = svEntry s sfx q) :
    servingStep s sfx P2 = P2 := by
  refine servingStep_stable s sfx P2 (fun pe hpe => ?_)
  obtain ⟨q, rfl⟩ := h1 pe hpe
  exact svEntry_idem s sfx q

theorem mergedPlayersOf_idem (P : List (String × RawMap)) (raw : RawMap) :
    mergedPlayersOf (mergedPlayersOf P raw) raw = mergedPlayersOf P raw := by
  have hAB : ("A" : String) ≠ "B" := by decide
  have hBA : ("B" : String) ≠ "A" := by decide
  have hpA : alookup (parse_overlay_json raw).players "A" =
      some (extract_player (flatten_overlay_payload raw) "A") := by
    simp [parse_overlay_json, extract_players, alookup]
  have hpB : alookup (parse_overlay_json raw).players "B" =
      some (extract_player (flatten_overlay_payload raw) "B") := by
    simp [parse_overlay_json, extract_players, alookup]
  have hndA : (keysOf ((alookup (parse_overlay_json raw).players "A").getD
      ⟨.null, .null, []⟩).sets).Nodup := by
    rw [hpA]
    exact extract_player_sets_nodup _ "A"
  have hndB : (keysOf ((alookup (parse_overlay_json raw).players "B").getD
      ⟨.null, .null, []⟩).sets).Nodup := by
    rw [hpB]
    exact extract_player_sets_nodup _ "B"
  rw [mergedPlayersOf_eq_steps P raw, mergedPlayersOf_eq_steps _ raw]
  generalize hparsed : (parse_overlay_json raw).players = parsed at *
  generalize hs : (parse_overlay_json raw).serving = s
  generalize hP1 : mergeInfoStep parsed "B" (mergeInfoStep parsed "A" P) = P1
  generalize hP2 : servingStep s "B" (servingStep s "A" P1) = P2
  have hlookA : alookup P2 "A" = (alookup P1 "A").map (svEntry s "A") := by
    rw [← hP2, alookup_servingStep_ne _ _ _ _ hAB, alookup_servingStep_self]
  have hlookB : alookup P2 "B" = (alookup P1 "B").map (svEntry s "B") := by
    rw [← hP2, alookup_servingStep_self, alookup_servingStep_ne _ _ _ _ hBA]
  have h2A : has_player_info ((alookup parsed "A").getD ⟨.null, .null, []⟩)
      = true →
      ∃ q, alookup P2 "A" = some (svEntry s "A" (applyPlayerInfo q
        ((alookup parsed "A").getD ⟨.null, .null, []⟩))) := by
    intro hi
    refine ⟨(alookup P "A").getD [], ?_⟩
    rw [hlookA, ← hP1, alookup_mergeInfoStep_ne _ _ _ _ hAB,
      alookup_mergeInfoStep_self _ _ _ hi]
    rfl
  have h2B : has_player_info ((alookup parsed "B").getD ⟨.null, .null, []⟩)
      = true →
      ∃ q, alookup P2 "B" = some (svEntry s "B" (applyPlayerInfo q
        ((alookup parsed "B").getD ⟨.null, .null, []⟩))) := by
    intro hi
    refine ⟨(alookup (mergeInfoStep parsed "A" P) "B").getD [], ?_⟩
    rw [hlookB, ← hP1, alookup_mergeInfoStep_self _ _ _ hi]
    rfl
  have h1A : ∀ pe, alookup P2 "A" = some pe → ∃ q, pe = svEntry s "A" q := by
    intro pe hpe
    rw [hlookA] at hpe
    cases hq : alookup P1 "A" with
    | none => rw [hq] at hpe; cases hpe
    | some r =>
      rw [hq] at hpe
      exact ⟨r, (Option.some_injective _ hpe).symm⟩
  have h1B : ∀ pe, alookup P2 "B" = some pe → ∃ q, pe = svEntry s "B" q := by
    intro pe hpe
    rw [hlookB] at hpe
    cases hq : alookup P1 "B" with
    | none => rw [hq] at hpe; cases hpe
    | some r =>
      rw [hq] at hpe
      exact ⟨r, (Option.some_injective _ hpe).symm⟩
  rw [mergeInfoStep_stable_of parsed s "A" P2 hndA h2A,
    mergeInfoStep_stable_of parsed s "B" P2 hndB h2B,
    servingStep_stable_of s "A" P2 h1A,
    servingStep_stable_of s "B" P2 h1B]

theorem merge_partial_payload_idem (now_iso : String) (entry : Entry)
    (p : RawMap) (hWF : WFpartial p = true) :
    merge_partial_payload now_iso (merge_partial_payload now_iso entry p) p =
      merge_partial_payload now_iso entry p := by
  have hraw := mergeRawMap_idem entry.raw p hWF
  by_cases hpm : entry.pause_minutes = 0 <;>
    simp [merge_partial_payload, hraw, mergedPlayersOf_idem, hpm,
      COMMAND_ERROR_PAUSE_MINUTES]

/-- C9: merging the same well-formed mapped payload (a Python dict:
distinct keys, also inside `PlayerA`/`PlayerB` sub-dicts) into a
resource's snapshot twice in succession yields the very snapshot of the
single merge — no raw field, player record, status or any other entry
field changes on the second merge. -/
theorem merge_idempotent (now_iso : String) (entry : Entry) (p : RawMap)
    (hWF : WFpartial p = true) :
    merge_partial_payload now_iso (merge_partial_payload now_iso entry p) p =
      merge_partial_payload now_iso entry p :=
  merge_partial_payload_idem now_iso entry p hWF

/-- C9 witness: double merge of the one-field payload into the fresh
snapshot entry equals the single merge, at concrete inputs. -/
theorem merge_idempotent_witness :
    WFpartial annPayload = true ∧
    merge_partial_payload "t"
        (merge_partial_payload "t" (ensure_snapshot_entry "1") annPayload)
        annPayload =
      merge_partial_payload "t" (ensure_snapshot_entry "1") annPayload :=
  ⟨by decide,
    merge_idempotent "t" (ensure_snapshot_entry "1") annPayload (by decide)⟩

/-- The spec's side-readiness condition, stated as the conjunction the
specification describes: a non-empty name together with either a points
value or at least one substantive set-related value. -/
def spec_player_ready (player_raw : Option RawMap) : Bool :=
  match player_raw with
  | none => false
  | some pr =>
    let nameOk := match findCandidate pr ["name", "Name", "Value"] with
      | some (.str s) => pyStrip s ≠ ""
      | _ => false
    let has_points := (findCandidate pr ["points", "Points"]).isSome
    let fromMapping := match jGetD pr "sets" with
      | .obj sm => setValuesFrom sm
      | _ => []
    let set_values := if !fromMapping.isEmpty then fromMapping
      else setValuesFrom pr
    nameOk && (has_points || set_values.any has_content)

theorem if_not_false_eq_and (a b : Bool) :
    (if !a then false else b) = (a && b) := by
  cases a <;> simp

theorem player_has_payload_eq_spec (pe : Option RawMap) :
    player_has_payload pe = spec_player_ready pe := by
  cases pe with
  | none => rfl
  | some pr =>
    simp only [player_has_payload, spec_player_ready]
    exact if_not_false_eq_and _ _

theorem mergeStatus_iff (mp : List (String × RawMap)) :
    mergeStatusOf mp = SNAPSHOT_STATUS_OK ↔
      spec_player_ready (alookup mp "A") = true ∧
      spec_player_ready (alookup mp "B") = true := by
  unfold mergeStatusOf
  by_cases hc : (player_has_payload (alookup mp "A") &&
      player_has_payload (alookup mp "B")) = true
  · rw [if_pos hc]
    rw [Bool.and_eq_true, player_has_payload_eq_spec,
      player_has_payload_eq_spec] at hc
    exact iff_of_true rfl hc
  · rw [if_neg hc]
    rw [Bool.and_eq_true, player_has_payload_eq_spec,
      player_has_payload_eq_spec] at hc
    exact iff_of_false (by decide) hc

theorem mergeStatus_cases (mp : List (String × RawMap)) :
    mergeStatusOf mp = SNAPSHOT_STATUS_OK ∨
      mergeStatusOf mp = SNAPSHOT_STATUS_NO_DATA := by
  unfold mergeStatusOf
  by_cases hc : (player_has_payload (alookup mp "A") &&
      player_has_payload (alookup mp "B")) = true
  · exact Or.inl (by rw [if_pos hc])
  · exact Or.inr (by rw [if_neg hc])

/-- C1: the merger assigns status `ok` exactly when both player sides of
the merged snapshot are ready — a non-empty name together with either a
points value or a substantive set-related value — and assigns `no-data`
otherwise; and the spec's scenario: a resource fed only the payload
`\x7bNamePlayerA: "Ann"\x7d` keeps status `no-data` after any number of
merges. -/
theorem merge_status_ok_iff :
    (∀ (now_iso : String) (entry : Entry) (partial_ : RawMap),
      ((merge_partial_payload now_iso entry partial_).status =
          SNAPSHOT_STATUS_OK ↔
        spec_player_ready
            (alookup (merge_partial_payload now_iso entry partial_).players
              "A") = true ∧
          spec_player_ready
            (alookup (merge_partial_payload now_iso entry partial_).players
              "B") = true) ∧
      ((merge_partial_payload now_iso entry partial_).status =
          SNAPSHOT_STATUS_OK ∨
        (merge_partial_payload now_iso entry partial_).status =
          SNAPSHOT_STATUS_NO_DATA)) ∧
    (∀ n : ℕ,
      ((fun e => merge_partial_payload "t" e annPayload)^[n]
          (ensure_snapshot_entry "1")).status = SNAPSHOT_STATUS_NO_DATA) := by
  constructor
  · intro now_iso entry partial_
    have hstat : (merge_partial_payload now_iso entry partial_).status =
        mergeStatusOf (mergedPlayersOf entry.players
          (mergeRawMap entry.raw partial_)) := rfl
    have hpl : (merge_partial_payload now_iso entry partial_).players =
        mergedPlayersOf entry.players (mergeRawMap entry.raw partial_) := rfl
    rw [hstat, hpl]
    exact ⟨mergeStatus_iff _, mergeStatus_cases _⟩
  · have hiter : ∀ m : ℕ,
        (fun e => merge_partial_payload "t" e annPayload)^[m + 1]
            (ensure_snapshot_entry "1") =
          merge_partial_payload "t" (ensure_snapshot_entry "1") annPayload := by
      intro m
      induction m with
      | zero => rfl
      | succ k ih =>
        rw [Function.iterate_succ_apply', ih]
        exact merge_partial_payload_idem "t" _ annPayload (by decide)
    intro n
    cases n with
    | zero => rfl
    | succ m =>
      rw [hiter m]
      rfl

/-- All attempt times of a trace lie at or before `ub` (the window under
inspection covers the trace's tail). -/
def eventsLE (ub : ℚ) : List ThrottleEvent → Bool
  | [] => true
  | .resume _ _ :: rest => eventsLE ub rest
  | .attempt now _ :: rest => decide (now ≤ ub) && eventsLE ub rest

theorem throttleRefill_balance (s : ThrottleState) (now : ℚ)
    (h0 : 0 ≤ s.global_token_balance)
    (hC : s.global_token_balance ≤ GLOBAL_TOKEN_BUCKET_CAPACITY) :
    0 ≤ (throttleRefill s now).global_token_balance ∧
      (throttleRefill s now).global_token_balance ≤
        GLOBAL_TOKEN_BUCKET_CAPACITY := by
  unfold throttleRefill
  by_cases h : max 0 (now - s.global_tokens_last_refill) > 0
  · rw [if_pos h]
    constructor
    · simp only []
      refine le_min ?_ ?_
      · unfold GLOBAL_TOKEN_BUCKET_CAPACITY GLOBAL_RATE_LIMIT_PER_SECOND
        norm_num
      · have : (0 : ℚ) ≤ max 0 (now - s.global_tokens_last_refill) *
            GLOBAL_RATE_LIMIT_PER_SECOND := by
          apply mul_nonneg (le_max_left _ _)
          unfold GLOBAL_RATE_LIMIT_PER_SECOND
          norm_num
        linarith
    · exact min_le_left _ _
  · rw [if_neg h]
    exact ⟨h0, hC⟩

theorem throttleRefill_lastRefill (s : ThrottleState) (now ub : ℚ)
    (h : s.global_tokens_last_refill ≤ ub) (hn : now ≤ ub) :
    (throttleRefill s now).global_tokens_last_refill ≤ ub := by
  unfold throttleRefill
  by_cases hp : max 0 (now - s.global_tokens_last_refill) > 0
  · rw [if_pos hp]
    exact hn
  · rw [if_neg hp]
    exact h

theorem psi_refill_le (s : ThrottleState) (now : ℚ) :
    throttlePsi (throttleRefill s now) ≤ throttlePsi s := by
  unfold throttlePsi throttleRefill
  by_cases hp : max 0 (now - s.global_tokens_last_refill) > 0
  · rw [if_pos hp]
    simp only []
    have hel : max 0 (now - s.global_tokens_last_refill) =
        now - s.global_tokens_last_refill := by
      rcases max_choice 0 (now - s.global_tokens_last_refill) with h | h
      · rw [h] at hp
        exact absurd hp (lt_irrefl 0)
      · exact h
    have hmin : min GLOBAL_TOKEN_BUCKET_CAPACITY
        (s.global_token_balance +
          max 0 (now - s.global_tokens_last_refill) *
            GLOBAL_RATE_LIMIT_PER_SECOND) ≤
        s.global_token_balance +
          (now - s.global_tokens_last_refill) *
            GLOBAL_RATE_LIMIT_PER_SECOND := by
      rw [hel]
      exact min_le_right _ _
    have hexp : (now - s.global_tokens_last_refill) *
        GLOBAL_RATE_LIMIT_PER_SECOND =
        GLOBAL_RATE_LIMIT_PER_SECOND * now -
          GLOBAL_RATE_LIMIT_PER_SECOND * s.global_tokens_last_refill := by
      ring
    linarith
  · rw [if_neg hp]

theorem psi_refill_cap (s : ThrottleState) (now : ℚ)
    (hC : s.global_token_balance ≤ GLOBAL_TOKEN_BUCKET_CAPACITY) :
    throttlePsi (throttleRefill s now) ≤ GLOBAL_TOKEN_BUCKET_CAPACITY -
      GLOBAL_RATE_LIMIT_PER_SECOND * now := by
  unfold throttlePsi throttleRefill
  by_cases hp : max 0 (now - s.global_tokens_last_refill) > 0
  · rw [if_pos hp]
    simp only []
    have := min_le_left GLOBAL_TOKEN_BUCKET_CAPACITY
      (s.global_token_balance +
        max 0 (now - s.global_tokens_last_refill) *
          GLOBAL_RATE_LIMIT_PER_SECOND)
    linarith
  · rw [if_neg hp]
    have hle : now ≤ s.global_tokens_last_refill := by
      by_contra hcon
      push_neg at hcon
      have : max 0 (now - s.global_tokens_last_refill) ≥
          now - s.global_tokens_last_refill := le_max_right _ _
      have : (0 : ℚ) < now - s.global_tokens_last_refill := by linarith
      exact hp (lt_of_lt_of_le this (le_max_right _ _))
    have hrate : (0 : ℚ) ≤ GLOBAL_RATE_LIMIT_PER_SECOND := by
      unfold GLOBAL_RATE_LIMIT_PER_SECOND
      norm_num
    nlinarith [mul_le_mul_of_nonneg_left hle hrate]

theorem throttleAttempt_fields (s0 : ThrottleState) (app : String)
    (now : ℚ) :
    ((throttleAttempt s0 app now).1.global_token_balance =
        (throttleRefill s0 now).global_token_balance ∨
      ((throttleAttempt s0 app now).1.global_token_balance =
        max 0 ((throttleRefill s0 now).global_token_balance - 1) ∧
        1 - EPS9 ≤ (throttleRefill s0 now).global_token_balance)) ∧
    (throttleAttempt s0 app now).1.global_tokens_last_refill =
      (throttleRefill s0 now).global_tokens_last_refill := by
  unfold throttleAttempt
  simp only []
  split
  · rename_i hcond
    refine ⟨Or.inr ⟨?_, hcond.2.2⟩, ?_⟩ <;>
      ((repeat' split) <;> rfl)
  · exact ⟨Or.inl rfl, rfl⟩

theorem throttleAttempt_admitted (s0 : ThrottleState) (app : String)
    (now : ℚ) (h : (throttleAttempt s0 app now).2 = true) :
    (throttleAttempt s0 app now).1.global_token_balance =
      max 0 ((throttleRefill s0 now).global_token_balance - 1) ∧
    1 - EPS9 ≤ (throttleRefill s0 now).global_token_balance := by
  unfold throttleAttempt at h ⊢
  simp only [] at h ⊢
  split at h
  · rename_i hcond
    refine ⟨?_, hcond.2.2⟩
    (repeat' split) <;> rfl
  · simp at h

theorem resume_fields (s : ThrottleState) (app : String) (allowed : ℚ) :
    (schedule_controlapp_resume s app allowed).global_token_balance =
      s.global_token_balance ∧
    (schedule_controlapp_resume s app allowed).global_tokens_last_refill =
      s.global_tokens_last_refill := by
  unfold schedule_controlapp_resume
  simp only []
  (repeat' split) <;> exact ⟨rfl, rfl⟩

theorem psi_resume (s : ThrottleState) (app : String) (allowed : ℚ) :
    throttlePsi (schedule_controlapp_resume s app allowed) =
      throttlePsi s := by
  obtain ⟨h1, h2⟩ := resume_fields s app allowed
  unfold throttlePsi
  rw [h1, h2]

theorem psi_attempt_le (s0 : ThrottleState) (app : String) (now : ℚ) :
    throttlePsi (throttleAttempt s0 app now).1 ≤ throttlePsi s0 := by
  obtain ⟨hb, hl⟩ := throttleAttempt_fields s0 app now
  have hr := psi_refill_le s0 now
  unfold throttlePsi at hr ⊢
  rw [hl]
  rcases hb with hb | ⟨hb, hge⟩
  · rw [hb]
    exact hr
  · rw [hb]
    have : max 0 ((throttleRefill s0 now).global_token_balance - 1) ≤
        (throttleRefill s0 now).global_token_balance := by
      apply max_le
      · have hE : (0 : ℚ) < 1 - EPS9 := by
          unfold EPS9
          norm_num
        linarith
      · linarith
    linarith

theorem psi_attempt_admitted_drop (s0 : ThrottleState) (app : String)
    (now : ℚ) (h : (throttleAttempt s0 app now).2 = true) :
    throttlePsi (throttleAttempt s0 app now).1 ≤
      throttlePsi s0 - (1 - EPS9) := by
  obtain ⟨hb, hge⟩ := throttleAttempt_admitted s0 app now h
  have hl := (throttleAttempt_fields s0 app now).2
  have hr := psi_refill_le s0 now
  have hmax : max 0 ((throttleRefill s0 now).global_token_balance - 1) ≤
      (throttleRefill s0 now).global_token_balance - (1 - EPS9) := by
    apply max_le
    · linarith
    · have hE : (0 : ℚ) ≤ EPS9 := by
        unfold EPS9
        norm_num
      linarith
  unfold throttlePsi at hr ⊢
  rw [hl, hb]
  linarith

theorem psi_attempt_admitted_cap (s0 : ThrottleState) (app : String)
    (now : ℚ) (h : (throttleAttempt s0 app now).2 = true)
    (hC : s0.global_token_balance ≤ GLOBAL_TOKEN_BUCKET_CAPACITY) :
    throttlePsi (throttleAttempt s0 app now).1 ≤
      GLOBAL_TOKEN_BUCKET_CAPACITY -
        GLOBAL_RATE_LIMIT_PER_SECOND * now - (1 - EPS9) := by
  obtain ⟨hb, hge⟩ := throttleAttempt_admitted s0 app now h
  have hl := (throttleAttempt_fields s0 app now).2
  have hr := psi_refill_cap s0 now hC
  have hmax : max 0 ((throttleRefill s0 now).global_token_balance - 1) ≤
      (throttleRefill s0 now).global_token_balance - (1 - EPS9) := by
    apply max_le
    · linarith
    · have hE : (0 : ℚ) ≤ EPS9 := by
        unfold EPS9
        norm_num
      linarith
  unfold throttlePsi at hr ⊢
  rw [hl, hb]
  linarith

theorem throttleAttempt_inv (s0 : ThrottleState) (app : String)
    (now t1 : ℚ) (h0 : 0 ≤ s0.global_token_balance)
    (hC : s0.global_token_balance ≤ GLOBAL_TOKEN_BUCKET_CAPACITY)
    (hl : s0.global_tokens_last_refill ≤ t1) (hn : now ≤ t1) :
    0 ≤ (throttleAttempt s0 app now).1.global_token_balance ∧
    (throttleAttempt s0 app now).1.global_token_balance ≤
      GLOBAL_TOKEN_BUCKET_CAPACITY ∧
    (throttleAttempt s0 app now).1.global_tokens_last_refill ≤ t1 := by
  obtain ⟨hb, hlr⟩ := throttleAttempt_fields s0 app now
  obtain ⟨hr0, hrC⟩ := throttleRefill_balance s0 now h0 hC
  have hrl := throttleRefill_lastRefill s0 now t1 hl hn
  refine ⟨?_, ?_, hlr ▸ hrl⟩
  · rcases hb with hb | ⟨hb, _⟩
    · rw [hb]; exact hr0
    · rw [hb]; exact le_max_left _ _
  · rcases hb with hb | ⟨hb, _⟩
    · rw [hb]; exact hrC
    · rw [hb]
      apply max_le
      · unfold GLOBAL_TOKEN_BUCKET_CAPACITY GLOBAL_RATE_LIMIT_PER_SECOND
        norm_num
      · linarith

theorem psi_run_drop (t0 t1 : ℚ) :
    ∀ (evs : List ThrottleEvent) (s : ThrottleState),
      throttlePsi (runThrottle s evs) ≤
        throttlePsi s -
          (countAdmittedIn s t0 t1 evs : ℚ) * (1 - EPS9) := by
  intro evs
  induction evs with
  | nil =>
    intro s
    simp [runThrottle, countAdmittedIn]
  | cons ev rest ih =>
    intro s
    cases ev with
    | resume app allowed =>
      have hrun : runThrottle s (.resume app allowed :: rest) =
          runThrottle (schedule_controlapp_resume s app allowed) rest := rfl
      have hcnt : countAdmittedIn s t0 t1 (.resume app allowed :: rest) =
          countAdmittedIn (schedule_controlapp_resume s app allowed) t0 t1
            rest := rfl
      rw [hrun, hcnt]
      have := ih (schedule_controlapp_resume s app allowed)
      rw [psi_resume s app allowed] at this
      exact this
    | attempt now app =>
      have hrun : runThrottle s (.attempt now app :: rest) =
          runThrottle (throttleAttempt s app now).1 rest := rfl
      have hcnt : countAdmittedIn s t0 t1 (.attempt now app :: rest) =
          (if (throttleAttempt s app now).2 = true ∧ t0 ≤ now ∧ now ≤ t1
            then 1 else 0) +
          countAdmittedIn (throttleAttempt s app now).1 t0 t1 rest := rfl
      rw [hrun, hcnt]
      have hih := ih (throttleAttempt s app now).1
      by_cases hc : (throttleAttempt s app now).2 = true ∧ t0 ≤ now ∧
          now ≤ t1
      · rw [if_pos hc]
        have hdrop := psi_attempt_admitted_drop s app now hc.1
        push_cast
        linarith
      · rw [if_neg hc]
        have hle := psi_attempt_le s app now
        push_cast
        linarith

theorem run_inv (t1 : ℚ) :
    ∀ (evs : List ThrottleEvent) (s : ThrottleState),
      eventsLE t1 evs = true →
      0 ≤ s.global_token_balance →
      s.global_token_balance ≤ GLOBAL_TOKEN_BUCKET_CAPACITY →
      s.global_tokens_last_refill ≤ t1 →
      0 ≤ (runThrottle s evs).global_token_balance ∧
      (runThrottle s evs).global_token_balance ≤
        GLOBAL_TOKEN_BUCKET_CAPACITY ∧
      (runThrottle s evs).global_tokens_last_refill ≤ t1 := by
  intro evs
  induction evs with
  | nil =>
    intro s _ h0 hC hl
    exact ⟨h0, hC, hl⟩
  | cons ev rest ih =>
    intro s hle h0 hC hl
    cases ev with
    | resume app allowed =>
      obtain ⟨hb, hr⟩ := resume_fields s app allowed
      exact ih (schedule_controlapp_resume s app allowed)
        (by simpa [eventsLE] using hle) (hb ▸ h0) (hb ▸ hC) (hr ▸ hl)
    | attempt now app =>
      rw [eventsLE, Bool.and_eq_true, decide_eq_true_eq] at hle
      obtain ⟨ha0, haC, hal⟩ :=
        throttleAttempt_inv s app now t1 h0 hC hl hle.1
      exact ih (throttleAttempt s app now).1 hle.2 ha0 haC hal

theorem count_psi_bound (t0 t1 : ℚ) :
    ∀ (evs : List ThrottleEvent) (s : ThrottleState),
      eventsLE t1 evs = true →
      0 ≤ s.global_token_balance →
      s.global_token_balance ≤ GLOBAL_TOKEN_BUCKET_CAPACITY →
      s.global_tokens_last_refill ≤ t1 →
      1 ≤ countAdmittedIn s t0 t1 evs →
      throttlePsi (runThrottle s evs) ≤
        GLOBAL_TOKEN_BUCKET_CAPACITY -
          GLOBAL_RATE_LIMIT_PER_SECOND * t0 -
          (countAdmittedIn s t0 t1 evs : ℚ) * (1 - EPS9) := by
  intro evs
  induction evs with
  | nil =>
    intro s _ _ _ _ hk
    simp [countAdmittedIn] at hk
  | cons ev rest ih =>
    intro s hle h0 hC hl hk
    cases ev with
    | resume app allowed =>
      have hrun : runThrottle s (.resume app allowed :: rest) =
          runThrottle (schedule_controlapp_resume s app allowed) rest := rfl
      have hcnt : countAdmittedIn s t0 t1 (.resume app allowed :: rest) =
          countAdmittedIn (schedule_controlapp_resume s app allowed) t0 t1
            rest := rfl
      obtain ⟨hb, hr⟩ := resume_fields s app allowed
      rw [hrun, hcnt]
      rw [hcnt] at hk
      exact ih (schedule_controlapp_resume s app allowed)
        (by simpa [eventsLE] using hle) (hb ▸ h0) (hb ▸ hC) (hr ▸ hl) hk
    | attempt now app =>
      rw [eventsLE, Bool.and_eq_true, decide_eq_true_eq] at hle
      have hrun : runThrottle s (.attempt now app :: rest) =
          runThrottle (throttleAttempt s app now).1 rest := rfl
      have hcnt : countAdmittedIn s t0 t1 (.attempt now app :: rest) =
          (if (throttleAttempt s app now).2 = true ∧ t0 ≤ now ∧ now ≤ t1
            then 1 else 0) +
          countAdmittedIn (throttleAttempt s app now).1 t0 t1 rest := rfl
      obtain ⟨ha0, haC, hal⟩ :=
        throttleAttempt_inv s app now t1 h0 hC hl hle.1
      rw [hrun, hcnt]
      rw [hcnt] at hk
      by_cases hc : (throttleAttempt s app now).2 = true ∧ t0 ≤ now ∧
          now ≤ t1
      · rw [if_pos hc] at hk ⊢
        have hcap := psi_attempt_admitted_cap s app now hc.1 hC
        have hdrop := psi_run_drop t0 t1 rest (throttleAttempt s app now).1
        have hrate : (0 : ℚ) ≤ GLOBAL_RATE_LIMIT_PER_SECOND := by
          unfold GLOBAL_RATE_LIMIT_PER_SECOND
          norm_num
        have hmono : GLOBAL_RATE_LIMIT_PER_SECOND * t0 ≤
            GLOBAL_RATE_LIMIT_PER_SECOND * now :=
          mul_le_mul_of_nonneg_left hc.2.1 hrate
        push_cast
        linarith
      · rw [if_neg hc] at hk ⊢
        simp only [Nat.zero_add] at hk ⊢
        exact ih (throttleAttempt s app now).1 hle.2 ha0 haC hal hk

/-- C4 (amended): over any event trace whose attempts lie at or before
the window's end and any well-formed shared state (balance within
`[0, capacity]`, last refill not past the window's end), the admissions
inside the window `[t0, t1]` satisfy
`count * (1 - 1e-9) ≤ capacity + rate * (t1 - t0)`, and the shared token
balance stays within `[0, capacity]` throughout.  The spec's literal
bound `capacity + floor(W * rate)` fails by the `1e-9` comparison slack
of `_throttle_request` (see the counterexample). -/
theorem rate_window_bound (evs : List ThrottleEvent) (s : ThrottleState)
    (t0 t1 : ℚ) (hle : eventsLE t1 evs = true)
    (h0 : 0 ≤ s.global_token_balance)
    (hC : s.global_token_balance ≤ GLOBAL_TOKEN_BUCKET_CAPACITY)
    (hl : s.global_tokens_last_refill ≤ t1) (ht : t0 ≤ t1) :
    (countAdmittedIn s t0 t1 evs : ℚ) * (1 - EPS9) ≤
      GLOBAL_TOKEN_BUCKET_CAPACITY +
        GLOBAL_RATE_LIMIT_PER_SECOND * (t1 - t0) ∧
    0 ≤ (runThrottle s evs).global_token_balance ∧
    (runThrottle s evs).global_token_balance ≤
      GLOBAL_TOKEN_BUCKET_CAPACITY := by
  obtain ⟨hr0, hrC, hrl⟩ := run_inv t1 evs s hle h0 hC hl
  refine ⟨?_, hr0, hrC⟩
  have hrate : (0 : ℚ) ≤ GLOBAL_RATE_LIMIT_PER_SECOND := by
    unfold GLOBAL_RATE_LIMIT_PER_SECOND
    norm_num
  by_cases hk : 1 ≤ countAdmittedIn s t0 t1 evs
  · have hbound := count_psi_bound t0 t1 evs s hle h0 hC hl hk
    have hpsi : -(GLOBAL_RATE_LIMIT_PER_SECOND * t1) ≤
        throttlePsi (runThrottle s evs) := by
      unfold throttlePsi
      have := mul_le_mul_of_nonneg_left hrl hrate
      linarith
    linarith
  · push_neg at hk
    have hz : countAdmittedIn s t0 t1 evs = 0 := by omega
    rw [hz]
    have h1 : (0 : ℚ) ≤ GLOBAL_RATE_LIMIT_PER_SECOND * (t1 - t0) :=
      mul_nonneg hrate (by linarith)
    have h2 : (0 : ℚ) ≤ GLOBAL_TOKEN_BUCKET_CAPACITY := by
      unfold GLOBAL_TOKEN_BUCKET_CAPACITY GLOBAL_RATE_LIMIT_PER_SECOND
      norm_num
    push_cast
    linarith

/-- C4 witness: the amended bound at a concrete one-event trace from the
initial shared state. -/
theorem rate_window_bound_witness :
    (countAdmittedIn {} 0 100 [ThrottleEvent.attempt 100 "x"] : ℚ) *
        (1 - EPS9) ≤
      GLOBAL_TOKEN_BUCKET_CAPACITY +
        GLOBAL_RATE_LIMIT_PER_SECOND * (100 - 0) ∧
    0 ≤ (runThrottle {}
        [ThrottleEvent.attempt 100 "x"]).global_token_balance ∧
    (runThrottle {}
        [ThrottleEvent.attempt 100 "x"]).global_token_balance ≤
      GLOBAL_TOKEN_BUCKET_CAPACITY :=
  rate_window_bound [ThrottleEvent.attempt 100 "x"] {} 0 100
    (by decide) (by decide) (by decide) (by decide) (by decide)

/-- C4 counterexample: three admissions fall inside the closed window
`[100, 100 + W]` with `W = (1 - 1e-9)/2`, although
`capacity + W * rate < 3` (hence also
`capacity + floor(W * rate) = 2 < 3`): the `1e-9` comparison slack of
`_throttle_request` admits a third request fractionally before a full
token has been refilled. -/
theorem rate_window_counterexample :
    countAdmittedIn {} 100 (100 + (1 - EPS9) / 2)
      [ThrottleEvent.attempt 100 "x", ThrottleEvent.attempt 100 "y",
        ThrottleEvent.attempt (100 + (1 - EPS9) / 2) "z"] = 3 ∧
    GLOBAL_TOKEN_BUCKET_CAPACITY + GLOBAL_RATE_LIMIT_PER_SECOND *
        ((100 + (1 - EPS9) / 2) - 100) < 3 := by
  constructor
  · have hxy : ¬ (("x" : String) = "y") := by decide
    have hxz : ¬ (("x" : String) = "z") := by decide
    have hyz : ¬ (("y" : String) = "z") := by decide
    norm_num [countAdmittedIn, throttleAttempt, throttleRefill, alookup,
      setKey, removeKey, EPS9, GLOBAL_TOKEN_BUCKET_CAPACITY,
      GLOBAL_RATE_LIMIT_PER_SECOND, PER_CONTROLAPP_MIN_INTERVAL_SECONDS,
      hxy, hxz, hyz, min_def, max_def]
  · norm_num [EPS9, GLOBAL_TOKEN_BUCKET_CAPACITY,
      GLOBAL_RATE_LIMIT_PER_SECOND]
